import Mathlib

/-!
# Verification of the xbot message-forwarding bot (src/main.py)

Shallow embedding of the `SmartPostingBot` program: the text-processing
pipeline `process_text`, the startup configuration loading and validation
(`__init__` / `validate_config`), and the per-message routing logic
(`handle_source_channel_message`, `post_to_log_channel`,
`process_for_twitter`, `post_to_twitter`).

Texts are modelled as `List Char` (Python strings are sequences of Unicode
code points, as is `List Char`; `len` is `List.length`).  The regular
expression substitutions of `process_text` are modelled as single
left-to-right scans, which is exactly how `re.sub` operates (leftmost,
non-overlapping matches, each removed).  External effects (Telegram and
Twitter network calls, the local filesystem) are modelled by an explicit
system state `Sys` threaded through the functions, and by an `Env` of
failure-injection flags saying which external call raises an exception.
-/

/-- Python whitespace for `str` regexes (`\s`) and `str.strip()`:
ASCII whitespace control characters plus the Unicode space characters. -/
def isWs (c : Char) : Bool :=
  c.toNat == 9 || c.toNat == 10 || c.toNat == 11 || c.toNat == 12 ||
  c.toNat == 13 || c.toNat == 28 || c.toNat == 29 || c.toNat == 30 ||
  c.toNat == 31 || c.toNat == 32 || c.toNat == 0x85 || c.toNat == 0xa0 ||
  c.toNat == 0x1680 || (Nat.ble 0x2000 c.toNat && Nat.ble c.toNat 0x200a) ||
  c.toNat == 0x2028 || c.toNat == 0x2029 || c.toNat == 0x202f ||
  c.toNat == 0x205f || c.toNat == 0x3000

/-- Python `\w` word characters (modelled on the ASCII range:
letters, digits and underscore). -/
def isWordChar (c : Char) : Bool :=
  (Nat.ble 65 c.toNat && Nat.ble c.toNat 90) ||
  (Nat.ble 97 c.toNat && Nat.ble c.toNat 122) ||
  (Nat.ble 48 c.toNat && Nat.ble c.toNat 57) || c.toNat == 95

/-- The character class of the emoji pattern in `process_text`
(six code-point ranges, kept with their overlaps as in the source). -/
def isEmojiChar (c : Char) : Bool :=
  (Nat.ble 0x1F600 c.toNat && Nat.ble c.toNat 0x1F64F) ||
  (Nat.ble 0x1F300 c.toNat && Nat.ble c.toNat 0x1F5FF) ||
  (Nat.ble 0x1F680 c.toNat && Nat.ble c.toNat 0x1F6FF) ||
  (Nat.ble 0x1F1E0 c.toNat && Nat.ble c.toNat 0x1F1FF) ||
  (Nat.ble 0x2702 c.toNat && Nat.ble c.toNat 0x27B0) ||
  (Nat.ble 0x24C2 c.toNat && Nat.ble c.toNat 0x1F251)

/-- `lit` occurs literally at the head of `cs`. -/
def litAt : List Char → List Char → Bool
  | [], _ => true
  | _ :: _, [] => false
  | a :: l, b :: m => a == b && litAt l m

/-- The character at index `n` of `cs` exists and is not whitespace. -/
def nonWsAt (cs : List Char) (n : Nat) : Bool :=
  match cs.drop n with
  | [] => false
  | c :: _ => !isWs c

/-- A match of the URL regex `http\S+|www\S+|https\S+` starts at the head of
`cs`: one of the literals followed by at least one non-whitespace character.
(The `https\S+` alternative is kept although it is subsumed by `http\S+`.) -/
def urlStartsAt (cs : List Char) : Bool :=
  (litAt ['h', 't', 't', 'p'] cs && nonWsAt cs 4) ||
  (litAt ['w', 'w', 'w'] cs && nonWsAt cs 3) ||
  (litAt ['h', 't', 't', 'p', 's'] cs && nonWsAt cs 5)

/-- A match of `#\w+` starts at the head of `cs`. -/
def tagStartsAt : List Char → Bool
  | a :: b :: _ => a == '#' && isWordChar b
  | _ => false

/-- A match of `@\w+` starts at the head of `cs`. -/
def mentionStartsAt : List Char → Bool
  | a :: b :: _ => a == '@' && isWordChar b
  | _ => false

/-- `re.sub(r'http\S+|www\S+|https\S+', '', ·)` as a left-to-right scan.
`skipping = true` means the scanner is inside a match consuming the greedy
`\S+` (it drops characters until whitespace); in a match the whole literal
and then every following non-whitespace character is consumed. -/
def subUrlAux : Bool → List Char → List Char
  | _, [] => []
  | skipping, c :: cs =>
    if skipping && !isWs c then subUrlAux true cs
    else if urlStartsAt (c :: cs) then subUrlAux true cs
    else c :: subUrlAux false cs

def subUrl (l : List Char) : List Char := subUrlAux false l

/-- `re.sub(r'#\w+', '', ·)`: `skipping = true` consumes the greedy `\w+`. -/
def subTagAux : Bool → List Char → List Char
  | _, [] => []
  | skipping, c :: cs =>
    if skipping && isWordChar c then subTagAux true cs
    else if tagStartsAt (c :: cs) then subTagAux true cs
    else c :: subTagAux false cs

def subTag (l : List Char) : List Char := subTagAux false l

/-- `re.sub(r'@\w+', '', ·)`: `skipping = true` consumes the greedy `\w+`. -/
def subMentionAux : Bool → List Char → List Char
  | _, [] => []
  | skipping, c :: cs =>
    if skipping && isWordChar c then subMentionAux true cs
    else if mentionStartsAt (c :: cs) then subMentionAux true cs
    else c :: subMentionAux false cs

def subMention (l : List Char) : List Char := subMentionAux false l

/-- `emoji_pattern.sub('', ·)`: every character of the class is removed
(a `[...]+` match removes exactly the characters of the class). -/
def subEmoji (l : List Char) : List Char := l.filter (fun c => !isEmojiChar c)

/-- `re.sub(r'\s+', ' ', ·)`: each maximal whitespace run becomes one space.
`skipping = true` means the scanner is inside a run whose space was emitted. -/
def collapseWsAux : Bool → List Char → List Char
  | _, [] => []
  | skipping, c :: cs =>
    if skipping && isWs c then collapseWsAux true cs
    else if isWs c then ' ' :: collapseWsAux true cs
    else c :: collapseWsAux false cs

def collapseWs (l : List Char) : List Char := collapseWsAux false l

/-- Remove trailing whitespace. -/
def dropTrailWs : List Char → List Char
  | [] => []
  | c :: cs =>
    match dropTrailWs cs with
    | [] => if isWs c then [] else [c]
    | d :: ds => c :: d :: ds

/-- Python `str.strip()`: remove leading and trailing whitespace. -/
def stripWs (l : List Char) : List Char := dropTrailWs (l.dropWhile isWs)

/-- The processing options of the configuration (the `MAX_TWITTER_LENGTH`,
`SKIP_LONG_POSTS`, `REMOVE_*`, `TRIM_EXTRA_SPACES`, `ADD_PREFIX` and
`ADD_SUFFIX` entries of `self.config`; `addPreText` models `ADD_PREFIX`). -/
structure Config where
  maxTwitterLength : Nat
  skipLongPosts : Bool
  removeUrls : Bool
  removeHashtags : Bool
  removeMentions : Bool
  removeEmojis : Bool
  trimExtraSpaces : Bool
  addPreText : List Char
  addSuffix : List Char

/-- `SmartPostingBot.process_text`: the ordered, toggled pipeline.
Empty (or absent) text returns `""` immediately; a non-empty `ADD_PREFIX` or
`ADD_SUFFIX` string is truthy in Python, hence the `isEmpty` guards. -/
def process_text (cfg : Config) (text : List Char) : List Char :=
  if text.isEmpty then []
  else
    let t1 := if cfg.removeUrls then subUrl text else text
    let t2 := if cfg.removeHashtags then subTag t1 else t1
    let t3 := if cfg.removeMentions then subMention t2 else t2
    let t4 := if cfg.removeEmojis then subEmoji t3 else t3
    let t5 := if cfg.trimExtraSpaces then stripWs (collapseWs t4) else t4
    let t6 := if cfg.addPreText.isEmpty then t5 else cfg.addPreText ++ t5
    let t7 := if cfg.addSuffix.isEmpty then t6 else t6 ++ cfg.addSuffix
    stripWs t7

/-! ## The router: messages, system state, failure injection -/

/-- An attached media object: only its byte size matters to the logic
(`os.path.getsize` of the downloaded file). -/
structure Media where
  sizeBytes : Nat
deriving DecidableEq

/-- An inbound Telegram message (`event.message`): identifier, optional text
(`message.text` may be `None`), optional media. -/
structure Message where
  id : Nat
  text : Option (List Char)
  media : Option Media

/-- Local temporary files: `temp_media_{id}` (log-channel attempt) and
`twitter_media_{id}` (Twitter attempt). -/
inductive FileTag
  | tempMedia (id : Nat)
  | twitterMedia (id : Nat)
deriving DecidableEq

/-- Observable external state: existing local files, messages delivered to
the log channel, created tweets. -/
structure Sys where
  files : List FileTag
  logPosts : List (List Char)
  tweets : List (List Char)
deriving DecidableEq

/-- Failure injection for the external calls: `true` means that call raises
an exception when invoked. -/
structure Env where
  downloadLogRaises : Bool
  sendFileRaises : Bool
  sendMessageRaises : Bool
  downloadTwRaises : Bool
  mediaUploadRaises : Bool
  createTweetRaises : Bool
deriving DecidableEq

/-- `if os.path.exists(path): os.remove(path)` -/
def removeIfExists (p : FileTag) (s : Sys) : Sys :=
  if p ∈ s.files then { s with files := s.files.erase p } else s

/-- An exception value (the router only distinguishes none of them). -/
inductive Exc
  | generic
deriving DecidableEq

/-- The body of `post_to_log_channel`'s `try:` block.  An error carries the
state at the raise point (side effects before the raise persist). -/
def log_body (env : Env) (msg : Message) (ptext : List Char) (s : Sys) :
    Except (Exc × Sys) Sys :=
  match msg.media with
  | some _ =>
    if env.downloadLogRaises then .error (.generic, s)
    else
      let path := FileTag.tempMedia msg.id
      let s1 := { s with files := path :: s.files }
      if env.sendFileRaises then .error (.generic, s1)
      else
        let s2 := { s1 with logPosts := s1.logPosts ++ [ptext] }
        .ok (removeIfExists path s2)
  | none =>
    if env.sendMessageRaises then .error (.generic, s)
    else .ok { s with logPosts := s.logPosts ++ [ptext] }

/-- `post_to_log_channel`: the `try/except Exception` around `log_body`
catches every exception (logging it), so the call always returns. -/
def post_to_log_channel (env : Env) (msg : Message) (ptext : List Char)
    (s : Sys) : Sys :=
  match log_body env msg ptext s with
  | .ok s' => s'
  | .error (_, s') => s'

/-- `post_to_twitter`: checks the 50 MB limit (raising `ValueError`, caught
below), uploads media, creates the tweet.  Both `except` clauses return
`False`, so the function never raises; it returns the success flag. -/
def post_to_twitter (env : Env) (text : List Char)
    (media : Option (FileTag × Nat)) (s : Sys) : Sys × Bool :=
  match media with
  | some (_, size) =>
    if 50 * 1024 * 1024 < size then (s, false)
    else if env.mediaUploadRaises then (s, false)
    else if env.createTweetRaises then (s, false)
    else ({ s with tweets := s.tweets ++ [text] }, true)
  | none =>
    if env.createTweetRaises then (s, false)
    else ({ s with tweets := s.tweets ++ [text] }, true)

/-- Outcome of one Twitter delivery attempt (`process_for_twitter`):
the tweet was posted, `post_to_twitter` reported failure, or an exception
was caught by the `except` clause. -/
inductive TwOutcome
  | posted
  | failed
  | errorCaught
deriving DecidableEq

/-- `process_for_twitter`: downloads media (if any), calls `post_to_twitter`,
and in the `finally:` clause removes the temporary file if it was created
(`media_path` stays `None` when the download raises). -/
def process_for_twitter (env : Env) (msg : Message) (ptext : List Char)
    (s : Sys) : Sys × TwOutcome :=
  match msg.media with
  | some m =>
    if env.downloadTwRaises then (s, .errorCaught)
    else
      let path := FileTag.twitterMedia msg.id
      let s1 := { s with files := path :: s.files }
      let r := post_to_twitter env ptext (some (path, m.sizeBytes)) s1
      (removeIfExists path r.1, if r.2 then .posted else .failed)
  | none =>
    let r := post_to_twitter env ptext none s
    (r.1, if r.2 then .posted else .failed)

/-- Delivery attempts, for the handler's trace. -/
inductive Act
  | logAttempt
  | twitterAttempt
deriving DecidableEq

/-- The length check of `handle_source_channel_message`:
`SKIP_LONG_POSTS and len(processed_text) > MAX_TWITTER_LENGTH`. -/
def skip_twitter (cfg : Config) (msg : Message) : Bool :=
  cfg.skipLongPosts &&
    decide (cfg.maxTwitterLength < (process_text cfg (msg.text.getD [])).length)

/-- Result of handling one inbound message: final state, the delivery
attempts that were invoked, and the Twitter outcome (`none` = skipped). -/
structure HOut where
  sys : Sys
  trace : List Act
  twAttempt : Option TwOutcome

/-- The body of the handler's `try:` block: process the text, decide the
skip flag, always attempt the log channel, then attempt Twitter unless
skipped.  All callees catch their own exceptions, so the body never
raises; the `Except` layer marks where the outer `except` would catch. -/
def handler_body (env : Env) (cfg : Config) (msg : Message) (s : Sys) :
    Except (Exc × Sys) HOut :=
  let ptext := process_text cfg (msg.text.getD [])
  let s1 := post_to_log_channel env msg ptext s
  if skip_twitter cfg msg then
    .ok ⟨s1, [Act.logAttempt], none⟩
  else
    let r := process_for_twitter env msg ptext s1
    .ok ⟨r.1, [Act.logAttempt, Act.twitterAttempt], some r.2⟩

/-- `handle_source_channel_message`: the outer `try/except Exception`
catches anything escaping the body and returns normally. -/
def handle_source_channel_message (env : Env) (cfg : Config) (msg : Message)
    (s : Sys) : HOut :=
  match handler_body env cfg msg s with
  | .ok out => out
  | .error (_, s') => ⟨s', [], none⟩

/-! ## Startup configuration loading (`__init__` and `validate_config`) -/

/-- The process environment: variable-name/value pairs; `getenv` finds the
first binding. -/
def getenv (e : List (String × String)) (k : String) : Option String :=
  match e.find? (fun p => p.1 == k) with
  | some p => some p.2
  | none => none

def allDigits (l : List Char) : Bool := l.all (fun c => c.isDigit)

def natOfDigits (l : List Char) : Nat :=
  l.foldl (fun a c => a * 10 + (c.toNat - 48)) 0

/-- Python `int(s)` on an already-stripped digit string (optional sign);
`none` models the `ValueError` on anything else. -/
def intOfChars? : List Char → Option Int
  | [] => none
  | '-' :: rest =>
    if !rest.isEmpty && allDigits rest then some (-(natOfDigits rest : Int))
    else none
  | l => if allDigits l then some (natOfDigits l) else none

/-- `int(x)` after Python's permitted surrounding whitespace is removed. -/
def pyInt? (s : String) : Option Int := intOfChars? (stripWs s.data)

/-- `[int(x.strip()) for x in src.split(',') if x.strip()]`; `none` models a
`ValueError` from `int` on a non-numeric item. -/
def parse_channels (s : String) : Option (List Int) :=
  ((s.data.splitOn ',').map stripWs |>.filter (fun x => !x.isEmpty)).mapM
    intOfChars?

/-- The stored configuration entries inspected by `validate_config`
(credentials are kept as the `os.getenv` result). -/
structure RawConfig where
  TELEGRAM_API_ID : Option String
  TELEGRAM_API_HASH : Option String
  TELEGRAM_BOT_TOKEN : Option String
  SOURCE_CHANNELS : List Int
  LOG_CHANNEL : Int
  TWITTER_BEARER_TOKEN : Option String
  TWITTER_CONSUMER_KEY : Option String
  TWITTER_CONSUMER_SECRET : Option String
  TWITTER_ACCESS_TOKEN : Option String
  TWITTER_ACCESS_SECRET : Option String
deriving DecidableEq

/-- The required variables, in the order `validate_config` checks them. -/
def requiredVars : List String :=
  ["TELEGRAM_API_ID", "TELEGRAM_API_HASH", "TELEGRAM_BOT_TOKEN",
   "SOURCE_CHANNELS", "LOG_CHANNEL",
   "TWITTER_BEARER_TOKEN", "TWITTER_CONSUMER_KEY",
   "TWITTER_CONSUMER_SECRET", "TWITTER_ACCESS_TOKEN",
   "TWITTER_ACCESS_SECRET"]

/-- Python falsiness of `self.config.get(var)` for each required variable:
`None` or `""` for the credentials, the empty list for `SOURCE_CHANNELS`,
the integer `0` for `LOG_CHANNEL`. -/
def falsyVar (c : RawConfig) : String → Bool
  | "TELEGRAM_API_ID" => c.TELEGRAM_API_ID.getD "" == ""
  | "TELEGRAM_API_HASH" => c.TELEGRAM_API_HASH.getD "" == ""
  | "TELEGRAM_BOT_TOKEN" => c.TELEGRAM_BOT_TOKEN.getD "" == ""
  | "SOURCE_CHANNELS" => c.SOURCE_CHANNELS.isEmpty
  | "LOG_CHANNEL" => c.LOG_CHANNEL == 0
  | "TWITTER_BEARER_TOKEN" => c.TWITTER_BEARER_TOKEN.getD "" == ""
  | "TWITTER_CONSUMER_KEY" => c.TWITTER_CONSUMER_KEY.getD "" == ""
  | "TWITTER_CONSUMER_SECRET" => c.TWITTER_CONSUMER_SECRET.getD "" == ""
  | "TWITTER_ACCESS_TOKEN" => c.TWITTER_ACCESS_TOKEN.getD "" == ""
  | "TWITTER_ACCESS_SECRET" => c.TWITTER_ACCESS_SECRET.getD "" == ""
  | _ => false

/-- How startup ends: a validated configuration, a `ValueError` from
`validate_config` naming a variable, or an exception that names no
environment variable (the `TypeError` from `int(None)` when `LOG_CHANNEL`
is absent, or a `ValueError` from a failed `int(...)` parse). -/
inductive Startup
  | ok (c : RawConfig)
  | errMissing (v : String)
  | errUnnamed
deriving DecidableEq

def Startup.isOk : Startup → Bool
  | .ok _ => true
  | _ => false

def Startup.namesMissingVar : Startup → Bool
  | .errMissing _ => true
  | _ => false

/-- `validate_config`: raise on the first falsy required entry. -/
def validate_config (c : RawConfig) : Startup :=
  match requiredVars.find? (falsyVar c) with
  | some v => .errMissing v
  | none => .ok c

def mkRaw (e : List (String × String)) (srcs : List Int) (logch : Int) :
    RawConfig where
  TELEGRAM_API_ID := getenv e "TELEGRAM_API_ID"
  TELEGRAM_API_HASH := getenv e "TELEGRAM_API_HASH"
  TELEGRAM_BOT_TOKEN := getenv e "TELEGRAM_BOT_TOKEN"
  SOURCE_CHANNELS := srcs
  LOG_CHANNEL := logch
  TWITTER_BEARER_TOKEN := getenv e "TWITTER_BEARER_TOKEN"
  TWITTER_CONSUMER_KEY := getenv e "TWITTER_CONSUMER_KEY"
  TWITTER_CONSUMER_SECRET := getenv e "TWITTER_CONSUMER_SECRET"
  TWITTER_ACCESS_TOKEN := getenv e "TWITTER_ACCESS_TOKEN"
  TWITTER_ACCESS_SECRET := getenv e "TWITTER_ACCESS_SECRET"

/-- `SmartPostingBot.__init__` up to and including `validate_config`, in
the evaluation order of the config dict literal: `SOURCE_CHANNELS` is
parsed first, then `LOG_CHANNEL` (where `int(os.getenv('LOG_CHANNEL'))`
raises an unnamed `TypeError` if the variable is absent), then
`MAX_TWITTER_LENGTH`, then validation. -/
def load_config (e : List (String × String)) : Startup :=
  match parse_channels ((getenv e "SOURCE_CHANNELS").getD "") with
  | none => .errUnnamed
  | some srcs =>
    match getenv e "LOG_CHANNEL" with
    | none => .errUnnamed
    | some ls =>
      match pyInt? ls with
      | none => .errUnnamed
      | some logch =>
        match pyInt? ((getenv e "MAX_TWITTER_LENGTH").getD "280") with
        | none => .errUnnamed
        | some _ => validate_config (mkRaw e srcs logch)

/-- All three integer-valued settings parse successfully, so `__init__`
reaches `validate_config`. -/
def intSettingsParse (e : List (String × String)) : Bool :=
  (parse_channels ((getenv e "SOURCE_CHANNELS").getD "")).isSome &&
  (match getenv e "LOG_CHANNEL" with
   | none => false
   | some ls => (pyInt? ls).isSome) &&
  (pyInt? ((getenv e "MAX_TWITTER_LENGTH").getD "280")).isSome

/-! ## Predicates and fixtures used by the proofs -/

/-- No match of the pattern recognised by `f` starts at any position of `l`. -/
def NoMatch (f : List Char → Bool) (l : List Char) : Prop :=
  ∀ i : Nat, f (l.drop i) = false

/-- A match of `mark` followed by `\w+` starts at the head of `l`. -/
def markStartsAt (mark : Char) : List Char → Bool
  | a :: b :: _ => a == mark && isWordChar b
  | _ => false

/-- The common scan behind `subTagAux` and `subMentionAux`. -/
def subMarkAux (mark : Char) : Bool → List Char → List Char
  | _, [] => []
  | skipping, c :: cs =>
    if skipping && isWordChar c then subMarkAux mark true cs
    else if markStartsAt mark (c :: cs) then subMarkAux mark true cs
    else c :: subMarkAux mark false cs

/-- No two adjacent characters are both whitespace. -/
def wsPairFree : List Char → Bool
  | a :: b :: r => !(isWs a && isWs b) && wsPairFree (b :: r)
  | _ => true

/-- The first character, if any, is not whitespace. -/
def headNotWs (l : List Char) : Prop := ∀ c, l.head? = some c → isWs c = false

/-- The last character, if any, is not whitespace. -/
def lastNotWs (l : List Char) : Prop := ∀ c, l.getLast? = some c → isWs c = false

/-- Every whitespace character of the string is a plain space. -/
def allWsSingle (l : List Char) : Prop := ∀ c ∈ l, isWs c = true → c = ' '

/-- A full environment except `LOG_CHANNEL`. -/
def envNoLog : List (String × String) :=
  [("TELEGRAM_API_ID", "1"), ("TELEGRAM_API_HASH", "h"),
   ("TELEGRAM_BOT_TOKEN", "t"), ("SOURCE_CHANNELS", "1, 2"),
   ("TWITTER_BEARER_TOKEN", "b"), ("TWITTER_CONSUMER_KEY", "k"),
   ("TWITTER_CONSUMER_SECRET", "s"), ("TWITTER_ACCESS_TOKEN", "a"),
   ("TWITTER_ACCESS_SECRET", "x")]

/-- A full environment except `TWITTER_BEARER_TOKEN`. -/
def envNoBearer : List (String × String) :=
  [("TELEGRAM_API_ID", "1"), ("TELEGRAM_API_HASH", "h"),
   ("TELEGRAM_BOT_TOKEN", "t"), ("SOURCE_CHANNELS", "1, 2"),
   ("LOG_CHANNEL", "5"), ("TWITTER_CONSUMER_KEY", "k"),
   ("TWITTER_CONSUMER_SECRET", "s"), ("TWITTER_ACCESS_TOKEN", "a"),
   ("TWITTER_ACCESS_SECRET", "x")]

/-! ## Pattern-match predicates: no match anywhere in a string -/

theorem noMatch_cons_iff {f : List Char → Bool} {c : Char} {l : List Char} :
    NoMatch f (c :: l) ↔ f (c :: l) = false ∧ NoMatch f l := by
  constructor
  · intro h
    refine ⟨h 0, fun i => ?_⟩
    simpa using h (i + 1)
  · rintro ⟨h0, h⟩ i
    cases i with
    | zero => simpa using h0
    | succ n => simpa using h n

theorem noMatch_nil {f : List Char → Bool} (h : f [] = false) : NoMatch f [] :=
  fun i => by simpa using h

/-- Matches only look at a window from their start position, so appending on
the right preserves a match; with that, `NoMatch` is closed under taking an
initial segment of the string. -/
theorem noMatch_append_left {f : List Char → Bool}
    (hmono : ∀ y r, f y = true → f (y ++ r) = true) (hnil : f [] = false)
    {a b : List Char} (h : NoMatch f (a ++ b)) : NoMatch f a := by
  intro i
  rcases le_or_lt i a.length with hle | hlt
  · cases hq : f (a.drop i) with
    | false => rfl
    | true =>
      have hq2 := hmono _ b hq
      rw [← List.drop_append_of_le_length hle] at hq2
      rw [h i] at hq2
      cases hq2
  · rw [List.drop_eq_nil_of_le (Nat.le_of_lt hlt)]
    exact hnil

/-- `NoMatch` is closed under taking a final segment of the string. -/
theorem noMatch_append_right {f : List Char → Bool} {a b : List Char}
    (h : NoMatch f (a ++ b)) : NoMatch f b := by
  intro i
  simpa [List.drop_append] using h (a.length + i)

/-! ## URL removal: the output of `subUrl` contains no URL match -/

theorem litAt_cons_iff {a : Char} {l cs : List Char} :
    litAt (a :: l) cs = true ↔ ∃ cs', cs = a :: cs' ∧ litAt l cs' = true := by
  cases cs with
  | nil => simp [litAt]
  | cons b m =>
    simp only [litAt, Bool.and_eq_true, beq_iff_eq]
    constructor
    · rintro ⟨rfl, hm⟩
      exact ⟨m, rfl, hm⟩
    · rintro ⟨cs', heq, hm⟩
      cases heq
      exact ⟨rfl, hm⟩

theorem nonWsAt_iff {cs : List Char} {n : Nat} :
    nonWsAt cs n = true ↔ ∃ e r, cs.drop n = e :: r ∧ isWs e = false := by
  unfold nonWsAt
  cases h : cs.drop n with
  | nil => simp
  | cons e r => simp [h]

/-- Any URL match is an occurrence of `http` or of `www` followed by a
non-whitespace character (the `https` alternative is subsumed by `http`). -/
theorem urlStartsAt_cases {x : List Char} (h : urlStartsAt x = true) :
    (∃ e r, x = 'h' :: 't' :: 't' :: 'p' :: e :: r ∧ isWs e = false) ∨
    (∃ e r, x = 'w' :: 'w' :: 'w' :: e :: r ∧ isWs e = false) := by
  simp only [urlStartsAt, Bool.or_eq_true, Bool.and_eq_true] at h
  rcases h with (⟨hl, hn⟩ | ⟨hl, hn⟩) | ⟨hl, hn⟩
  · left
    obtain ⟨x1, rfl, ha⟩ := litAt_cons_iff.mp hl
    obtain ⟨x2, rfl, hb⟩ := litAt_cons_iff.mp ha
    obtain ⟨x3, rfl, hc⟩ := litAt_cons_iff.mp hb
    obtain ⟨x4, rfl, -⟩ := litAt_cons_iff.mp hc
    obtain ⟨e, r, hd, he⟩ := nonWsAt_iff.mp hn
    simp only [List.drop_succ_cons, List.drop_zero] at hd
    exact ⟨e, r, by rw [hd], he⟩
  · right
    obtain ⟨x1, rfl, ha⟩ := litAt_cons_iff.mp hl
    obtain ⟨x2, rfl, hb⟩ := litAt_cons_iff.mp ha
    obtain ⟨x3, rfl, -⟩ := litAt_cons_iff.mp hb
    obtain ⟨e, r, hd, he⟩ := nonWsAt_iff.mp hn
    simp only [List.drop_succ_cons, List.drop_zero] at hd
    exact ⟨e, r, by rw [hd], he⟩
  · left
    obtain ⟨x1, rfl, ha⟩ := litAt_cons_iff.mp hl
    obtain ⟨x2, rfl, hb⟩ := litAt_cons_iff.mp ha
    obtain ⟨x3, rfl, hc⟩ := litAt_cons_iff.mp hb
    obtain ⟨x4, rfl, hd⟩ := litAt_cons_iff.mp hc
    obtain ⟨x5, rfl, -⟩ := litAt_cons_iff.mp hd
    exact ⟨'s', x5, rfl, by decide⟩

theorem urlStartsAt_http {e : Char} {r : List Char} (he : isWs e = false) :
    urlStartsAt ('h' :: 't' :: 't' :: 'p' :: e :: r) = true := by
  simp [urlStartsAt, litAt, nonWsAt, he]

theorem urlStartsAt_www {e : Char} {r : List Char} (he : isWs e = false) :
    urlStartsAt ('w' :: 'w' :: 'w' :: e :: r) = true := by
  simp [urlStartsAt, litAt, nonWsAt, he]

/-- A URL match never starts at a whitespace character. -/
theorem urlStartsAt_ws {c : Char} {cs : List Char} (h : isWs c = true) :
    urlStartsAt (c :: cs) = false := by
  cases hq : urlStartsAt (c :: cs) with
  | false => rfl
  | true =>
    exfalso
    rcases urlStartsAt_cases hq with ⟨e, r, hx, -⟩ | ⟨e, r, hx, -⟩ <;>
      · injection hx with h1 _
        subst h1
        exact absurd h (by decide)

theorem urlStartsAt_mono (y r : List Char) (h : urlStartsAt y = true) :
    urlStartsAt (y ++ r) = true := by
  rcases urlStartsAt_cases h with ⟨e, s, rfl, he⟩ | ⟨e, s, rfl, he⟩
  · simpa using urlStartsAt_http (r := s ++ r) he
  · simpa using urlStartsAt_www (r := s ++ r) he

/-- Inside a match (`skipping = true`) nothing is emitted until whitespace:
the first character of the remaining output is whitespace. -/
theorem subUrlAux_true_head : ∀ {cs : List Char} {d : Char} {ds : List Char},
    subUrlAux true cs = d :: ds → isWs d = true := by
  intro cs
  induction cs with
  | nil => intro d ds h; simp [subUrlAux] at h
  | cons c cs ih =>
    intro d ds h
    rw [subUrlAux] at h
    cases hw : isWs c with
    | false =>
      simp only [hw] at h
      simp at h
      exact ih h
    | true =>
      simp [hw, urlStartsAt_ws hw] at h
      obtain ⟨rfl, -⟩ := h
      exact hw

/-- Inversion for the normal scanning mode: a non-whitespace head of the
output is the head of the input, kept because no match starts there. -/
theorem subUrlAux_false_cons {cs : List Char} {d : Char} {ds : List Char}
    (h : subUrlAux false cs = d :: ds) (hd : isWs d = false) :
    ∃ cs', cs = d :: cs' ∧ ds = subUrlAux false cs' ∧
      urlStartsAt (d :: cs') = false := by
  cases cs with
  | nil => simp [subUrlAux] at h
  | cons c cs =>
    rw [subUrlAux] at h
    cases hm : urlStartsAt (c :: cs) with
    | true =>
      simp [hm] at h
      rw [subUrlAux_true_head h] at hd
      cases hd
    | false =>
      simp [hm] at h
      obtain ⟨rfl, rfl⟩ := h
      exact ⟨cs, rfl, rfl, hm⟩

/-- Keeping an unmatched character cannot create a match: if no URL match
starts at `c :: cs`, none starts at `c` followed by the processed tail. -/
theorem subUrl_keep_head {c : Char} {cs : List Char}
    (hm : urlStartsAt (c :: cs) = false) :
    urlStartsAt (c :: subUrlAux false cs) = false := by
  cases hq : urlStartsAt (c :: subUrlAux false cs) with
  | false => rfl
  | true =>
    exfalso
    rcases urlStartsAt_cases hq with ⟨e, r, hx, he⟩ | ⟨e, r, hx, he⟩
    · injection hx with h1 hS
      subst h1
      obtain ⟨cs1, rfl, h1, -⟩ := subUrlAux_false_cons hS (by decide)
      obtain ⟨cs2, rfl, h2, -⟩ := subUrlAux_false_cons h1.symm (by decide)
      obtain ⟨cs3, rfl, h3, -⟩ := subUrlAux_false_cons h2.symm (by decide)
      obtain ⟨cs4, rfl, -, -⟩ := subUrlAux_false_cons h3.symm he
      rw [urlStartsAt_http he] at hm
      cases hm
    · injection hx with h1 hS
      subst h1
      obtain ⟨cs1, rfl, h1, -⟩ := subUrlAux_false_cons hS (by decide)
      obtain ⟨cs2, rfl, h2, -⟩ := subUrlAux_false_cons h1.symm (by decide)
      obtain ⟨cs3, rfl, -, -⟩ := subUrlAux_false_cons h2.symm he
      rw [urlStartsAt_www he] at hm
      cases hm

/-- Main lemma for URL removal: the output contains no URL match. -/
theorem subUrl_noMatch (cs : List Char) :
    ∀ b, NoMatch urlStartsAt (subUrlAux b cs) := by
  induction cs with
  | nil =>
    intro b
    cases b <;> exact noMatch_nil rfl
  | cons c cs ih =>
    intro b
    cases b with
    | true =>
      cases hw : isWs c with
      | false =>
        rw [subUrlAux]
        simp [hw]
        exact ih true
      | true =>
        rw [subUrlAux]
        simp [hw, urlStartsAt_ws hw]
        exact noMatch_cons_iff.mpr ⟨urlStartsAt_ws hw, ih false⟩
    | false =>
      cases hm : urlStartsAt (c :: cs) with
      | true =>
        rw [subUrlAux]
        simp [hm]
        exact ih true
      | false =>
        rw [subUrlAux]
        simp [hm]
        exact noMatch_cons_iff.mpr ⟨subUrl_keep_head hm, ih false⟩

/-- If a string has no URL match, URL removal leaves it unchanged. -/
theorem subUrl_id_of_noMatch {l : List Char} (h : NoMatch urlStartsAt l) :
    subUrlAux false l = l := by
  induction l with
  | nil => rfl
  | cons c l ih =>
    rw [noMatch_cons_iff] at h
    rw [subUrlAux]
    simp [h.1, ih h.2]

/-! ## Hashtag and mention removal, via a common marker abstraction

`#\w+` and `@\w+` differ only in the marker character, so their removal
scans are instances of one parametrised scan, about which the lemmas are
proved once. -/

theorem word_not_ws {c : Char} (h : isWordChar c = true) : isWs c = false := by
  rw [Bool.eq_false_iff]
  intro habs
  simp only [isWordChar, Bool.or_eq_true, Bool.and_eq_true, Nat.ble_eq,
    beq_iff_eq] at h
  simp only [isWs, Bool.or_eq_true, Bool.and_eq_true, Nat.ble_eq,
    beq_iff_eq] at habs
  omega

theorem tagStartsAt_eq (l : List Char) : tagStartsAt l = markStartsAt '#' l := by
  cases l with
  | nil => rfl
  | cons a t => cases t <;> rfl

theorem mentionStartsAt_eq (l : List Char) :
    mentionStartsAt l = markStartsAt '@' l := by
  cases l with
  | nil => rfl
  | cons a t => cases t <;> rfl

theorem subTagAux_eq : ∀ (b : Bool) (l : List Char),
    subTagAux b l = subMarkAux '#' b l := by
  intro b l
  induction l generalizing b with
  | nil => cases b <;> rfl
  | cons c cs ih =>
    rw [subTagAux, subMarkAux, tagStartsAt_eq, ih true, ih false]

theorem subMentionAux_eq : ∀ (b : Bool) (l : List Char),
    subMentionAux b l = subMarkAux '@' b l := by
  intro b l
  induction l generalizing b with
  | nil => cases b <;> rfl
  | cons c cs ih =>
    rw [subMentionAux, subMarkAux, mentionStartsAt_eq, ih true, ih false]

theorem markStartsAt_cases {mark : Char} {l : List Char}
    (h : markStartsAt mark l = true) :
    ∃ w t, l = mark :: w :: t ∧ isWordChar w = true := by
  match l with
  | [] => simp [markStartsAt] at h
  | [a] => simp [markStartsAt] at h
  | a :: b :: t =>
    simp only [markStartsAt, Bool.and_eq_true, beq_iff_eq] at h
    obtain ⟨rfl, hw⟩ := h
    exact ⟨b, t, rfl, hw⟩

theorem markStartsAt_build {mark w : Char} {t : List Char}
    (hw : isWordChar w = true) : markStartsAt mark (mark :: w :: t) = true := by
  simp [markStartsAt, hw]

theorem markStartsAt_mono (mark : Char) (y r : List Char)
    (h : markStartsAt mark y = true) : markStartsAt mark (y ++ r) = true := by
  obtain ⟨w, t, rfl, hw⟩ := markStartsAt_cases h
  simpa using markStartsAt_build (t := t ++ r) hw

/-- In skipping mode the scan drops the matched `\w+` run (and any directly
following matches), so the head of its output is never a word character. -/
theorem subMarkAux_true_head {mark : Char} :
    ∀ {cs : List Char} {d : Char} {ds : List Char},
    subMarkAux mark true cs = d :: ds → isWordChar d = false := by
  intro cs
  induction cs with
  | nil => intro d ds h; simp [subMarkAux] at h
  | cons c cs ih =>
    intro d ds h
    cases hw : isWordChar c with
    | true =>
      rw [subMarkAux] at h
      simp [hw] at h
      exact ih h
    | false =>
      rw [subMarkAux] at h
      cases hm : markStartsAt mark (c :: cs) with
      | true =>
        simp [hw, hm] at h
        exact ih h
      | false =>
        simp [hw, hm] at h
        obtain ⟨rfl, -⟩ := h
        exact hw

/-- Inversion: a word-character head of the output was the head of the
input, kept with no match starting there. -/
theorem subMarkAux_false_cons {mark : Char} {cs : List Char} {d : Char}
    {ds : List Char} (h : subMarkAux mark false cs = d :: ds)
    (hd : isWordChar d = true) :
    ∃ cs', cs = d :: cs' ∧ ds = subMarkAux mark false cs' ∧
      markStartsAt mark (d :: cs') = false := by
  cases cs with
  | nil => simp [subMarkAux] at h
  | cons c cs =>
    rw [subMarkAux] at h
    cases hm : markStartsAt mark (c :: cs) with
    | true =>
      simp [hm] at h
      rw [subMarkAux_true_head h] at hd
      cases hd
    | false =>
      simp [hm] at h
      obtain ⟨rfl, rfl⟩ := h
      exact ⟨cs, rfl, rfl, hm⟩

/-- Weak inversion: whatever the head of the output is, the input head is
either that character or the marker (start of a removed match). -/
theorem subMarkAux_false_src {mark : Char} {cs : List Char} {d : Char}
    {ds : List Char} (h : subMarkAux mark false cs = d :: ds) :
    ∃ c' cs', cs = c' :: cs' ∧ (c' = d ∨ c' = mark) := by
  cases cs with
  | nil => simp [subMarkAux] at h
  | cons c cs =>
    rw [subMarkAux] at h
    cases hm : markStartsAt mark (c :: cs) with
    | true =>
      obtain ⟨w, t, heq, -⟩ := markStartsAt_cases hm
      injection heq with h1 _
      exact ⟨c, cs, rfl, Or.inr h1⟩
    | false =>
      simp [hm] at h
      exact ⟨c, cs, rfl, Or.inl h.1⟩

/-- Keeping an unmatched character cannot create a marker match. -/
theorem subMark_keep_head {mark : Char} {c : Char} {cs : List Char}
    (hm : markStartsAt mark (c :: cs) = false) :
    markStartsAt mark (c :: subMarkAux mark false cs) = false := by
  cases hq : markStartsAt mark (c :: subMarkAux mark false cs) with
  | false => rfl
  | true =>
    exfalso
    obtain ⟨w, t, heq, hw⟩ := markStartsAt_cases hq
    injection heq with h1 h2
    subst h1
    obtain ⟨cs', rfl, -, -⟩ := subMarkAux_false_cons h2 hw
    rw [markStartsAt_build hw] at hm
    cases hm

/-- Main lemma for marker removal: the output contains no marker match. -/
theorem subMark_noMatch (mark : Char) (cs : List Char) :
    ∀ b, NoMatch (markStartsAt mark) (subMarkAux mark b cs) := by
  induction cs with
  | nil =>
    intro b
    cases b <;> exact noMatch_nil rfl
  | cons c cs ih =>
    intro b
    cases b with
    | true =>
      cases hw : isWordChar c with
      | true =>
        rw [subMarkAux]
        simp [hw]
        exact ih true
      | false =>
        cases hm : markStartsAt mark (c :: cs) with
        | true =>
          rw [subMarkAux]
          simp [hw, hm]
          exact ih true
        | false =>
          rw [subMarkAux]
          simp [hw, hm]
          exact noMatch_cons_iff.mpr ⟨subMark_keep_head hm, ih false⟩
    | false =>
      cases hm : markStartsAt mark (c :: cs) with
      | true =>
        rw [subMarkAux]
        simp [hm]
        exact ih true
      | false =>
        rw [subMarkAux]
        simp [hm]
        exact noMatch_cons_iff.mpr ⟨subMark_keep_head hm, ih false⟩

/-- If a string has no marker match, marker removal leaves it unchanged. -/
theorem subMark_id_of_noMatch {mark : Char} {l : List Char}
    (h : NoMatch (markStartsAt mark) l) : subMarkAux mark false l = l := by
  induction l with
  | nil => rfl
  | cons c l ih =>
    rw [noMatch_cons_iff] at h
    rw [subMarkAux]
    simp [h.1, ih h.2]

/-- Marker removal cannot create a URL match after a kept character: the
removed spans start at the (non-whitespace) marker and end before a
non-word character, so `http`/`www` never becomes adjacent to new
non-whitespace material. -/
theorem subMark_keep_head_url {mark : Char} {c : Char} {cs : List Char}
    (hmw : isWs mark = false) (hm : urlStartsAt (c :: cs) = false) :
    urlStartsAt (c :: subMarkAux mark false cs) = false := by
  cases hq : urlStartsAt (c :: subMarkAux mark false cs) with
  | false => rfl
  | true =>
    exfalso
    rcases urlStartsAt_cases hq with ⟨e, r, hx, he⟩ | ⟨e, r, hx, he⟩
    · injection hx with h1 hS
      subst h1
      obtain ⟨cs1, rfl, h1, -⟩ := subMarkAux_false_cons hS (by decide)
      obtain ⟨cs2, rfl, h2, -⟩ := subMarkAux_false_cons h1.symm (by decide)
      obtain ⟨cs3, rfl, h3, -⟩ := subMarkAux_false_cons h2.symm (by decide)
      obtain ⟨c', cs4, rfl, hc⟩ := subMarkAux_false_src h3.symm
      have hc' : isWs c' = false := by
        rcases hc with rfl | rfl
        · exact he
        · exact hmw
      rw [urlStartsAt_http hc'] at hm
      cases hm
    · injection hx with h1 hS
      subst h1
      obtain ⟨cs1, rfl, h1, -⟩ := subMarkAux_false_cons hS (by decide)
      obtain ⟨cs2, rfl, h2, -⟩ := subMarkAux_false_cons h1.symm (by decide)
      obtain ⟨c', cs3, rfl, hc⟩ := subMarkAux_false_src h2.symm
      have hc' : isWs c' = false := by
        rcases hc with rfl | rfl
        · exact he
        · exact hmw
      rw [urlStartsAt_www hc'] at hm
      cases hm

/-- Marker removal preserves the absence of URL matches. -/
theorem subMark_noMatch_url {mark : Char} (hmw : isWs mark = false) :
    ∀ (cs : List Char), NoMatch urlStartsAt cs →
    ∀ b, NoMatch urlStartsAt (subMarkAux mark b cs) := by
  intro cs
  induction cs with
  | nil =>
    intro _ b
    cases b <;> exact noMatch_nil rfl
  | cons c cs ih =>
    intro h b
    rw [noMatch_cons_iff] at h
    cases b with
    | true =>
      cases hw : isWordChar c with
      | true =>
        rw [subMarkAux]
        simp [hw]
        exact ih h.2 true
      | false =>
        cases hm : markStartsAt mark (c :: cs) with
        | true =>
          rw [subMarkAux]
          simp [hw, hm]
          exact ih h.2 true
        | false =>
          rw [subMarkAux]
          simp [hw, hm]
          exact noMatch_cons_iff.mpr
            ⟨subMark_keep_head_url hmw h.1, ih h.2 false⟩
    | false =>
      cases hm : markStartsAt mark (c :: cs) with
      | true =>
        rw [subMarkAux]
        simp [hm]
        exact ih h.2 true
      | false =>
        rw [subMarkAux]
        simp [hm]
        exact noMatch_cons_iff.mpr
          ⟨subMark_keep_head_url hmw h.1, ih h.2 false⟩

/-- Removal with one marker cannot create a match of another marker. -/
theorem subMark_keep_head_other {m1 m2 : Char} {c : Char} {cs : List Char}
    (hm : markStartsAt m1 (c :: cs) = false) :
    markStartsAt m1 (c :: subMarkAux m2 false cs) = false := by
  cases hq : markStartsAt m1 (c :: subMarkAux m2 false cs) with
  | false => rfl
  | true =>
    exfalso
    obtain ⟨w, t, heq, hw⟩ := markStartsAt_cases hq
    injection heq with h1 h2
    subst h1
    obtain ⟨cs', rfl, -, -⟩ := subMarkAux_false_cons h2 hw
    rw [markStartsAt_build hw] at hm
    cases hm

/-- Removal with one marker preserves the absence of matches of another. -/
theorem subMark_noMatch_other {m1 m2 : Char} :
    ∀ (cs : List Char), NoMatch (markStartsAt m1) cs →
    ∀ b, NoMatch (markStartsAt m1) (subMarkAux m2 b cs) := by
  intro cs
  induction cs with
  | nil =>
    intro _ b
    cases b <;> exact noMatch_nil rfl
  | cons c cs ih =>
    intro h b
    rw [noMatch_cons_iff] at h
    cases b with
    | true =>
      cases hw : isWordChar c with
      | true =>
        rw [subMarkAux]
        simp [hw]
        exact ih h.2 true
      | false =>
        cases hm : markStartsAt m2 (c :: cs) with
        | true =>
          rw [subMarkAux]
          simp [hw, hm]
          exact ih h.2 true
        | false =>
          rw [subMarkAux]
          simp [hw, hm]
          exact noMatch_cons_iff.mpr
            ⟨subMark_keep_head_other h.1, ih h.2 false⟩
    | false =>
      cases hm : markStartsAt m2 (c :: cs) with
      | true =>
        rw [subMarkAux]
        simp [hm]
        exact ih h.2 true
      | false =>
        rw [subMarkAux]
        simp [hm]
        exact noMatch_cons_iff.mpr
          ⟨subMark_keep_head_other h.1, ih h.2 false⟩

/-! ## Whitespace collapsing -/

/-- Inversion: a non-whitespace head of the collapse output is the head of
the input (a whitespace head of the input would emit a space). -/
theorem collapseWsAux_false_cons {cs : List Char} {d : Char} {ds : List Char}
    (h : collapseWsAux false cs = d :: ds) (hd : isWs d = false) :
    ∃ cs', cs = d :: cs' ∧ ds = collapseWsAux false cs' := by
  cases cs with
  | nil => simp [collapseWsAux] at h
  | cons c cs =>
    rw [collapseWsAux] at h
    cases hw : isWs c with
    | true =>
      simp [hw] at h
      rw [← h.1] at hd
      cases hd
    | false =>
      simp [hw] at h
      obtain ⟨rfl, rfl⟩ := h
      exact ⟨cs, rfl, rfl⟩

/-- Collapsing whitespace cannot create a URL match after a kept character:
kept non-whitespace characters have the same non-whitespace neighbours. -/
theorem collapse_keep_head_url {c : Char} {cs : List Char}
    (hm : urlStartsAt (c :: cs) = false) :
    urlStartsAt (c :: collapseWsAux false cs) = false := by
  cases hq : urlStartsAt (c :: collapseWsAux false cs) with
  | false => rfl
  | true =>
    exfalso
    rcases urlStartsAt_cases hq with ⟨e, r, hx, he⟩ | ⟨e, r, hx, he⟩
    · injection hx with h1 hS
      subst h1
      obtain ⟨cs1, rfl, h1⟩ := collapseWsAux_false_cons hS (by decide)
      obtain ⟨cs2, rfl, h2⟩ := collapseWsAux_false_cons h1.symm (by decide)
      obtain ⟨cs3, rfl, h3⟩ := collapseWsAux_false_cons h2.symm (by decide)
      obtain ⟨cs4, rfl, -⟩ := collapseWsAux_false_cons h3.symm he
      rw [urlStartsAt_http he] at hm
      cases hm
    · injection hx with h1 hS
      subst h1
      obtain ⟨cs1, rfl, h1⟩ := collapseWsAux_false_cons hS (by decide)
      obtain ⟨cs2, rfl, h2⟩ := collapseWsAux_false_cons h1.symm (by decide)
      obtain ⟨cs3, rfl, -⟩ := collapseWsAux_false_cons h2.symm he
      rw [urlStartsAt_www he] at hm
      cases hm

/-- Collapsing whitespace preserves the absence of URL matches. -/
theorem collapse_noMatch_url :
    ∀ (cs : List Char), NoMatch urlStartsAt cs →
    ∀ b, NoMatch urlStartsAt (collapseWsAux b cs) := by
  intro cs
  induction cs with
  | nil =>
    intro _ b
    cases b <;> exact noMatch_nil rfl
  | cons c cs ih =>
    intro h b
    rw [noMatch_cons_iff] at h
    cases hw : isWs c with
    | true =>
      cases b with
      | true =>
        rw [collapseWsAux]
        simp [hw]
        exact ih h.2 true
      | false =>
        rw [collapseWsAux]
        simp [hw]
        exact noMatch_cons_iff.mpr
          ⟨urlStartsAt_ws (by decide), ih h.2 true⟩
    | false =>
      cases b with
      | true =>
        rw [collapseWsAux]
        simp [hw]
        exact noMatch_cons_iff.mpr ⟨collapse_keep_head_url h.1, ih h.2 false⟩
      | false =>
        rw [collapseWsAux]
        simp [hw]
        exact noMatch_cons_iff.mpr ⟨collapse_keep_head_url h.1, ih h.2 false⟩

/-- Collapsing whitespace cannot create a marker match either. -/
theorem collapse_keep_head_mark {mark c : Char} {cs : List Char}
    (hm : markStartsAt mark (c :: cs) = false) :
    markStartsAt mark (c :: collapseWsAux false cs) = false := by
  cases hq : markStartsAt mark (c :: collapseWsAux false cs) with
  | false => rfl
  | true =>
    exfalso
    obtain ⟨w, t, heq, hw⟩ := markStartsAt_cases hq
    injection heq with h1 h2
    subst h1
    obtain ⟨cs', rfl, -⟩ := collapseWsAux_false_cons h2 (word_not_ws hw)
    rw [markStartsAt_build hw] at hm
    cases hm

theorem collapse_noMatch_mark {mark : Char} (hmw : isWs mark = false) :
    ∀ (cs : List Char), NoMatch (markStartsAt mark) cs →
    ∀ b, NoMatch (markStartsAt mark) (collapseWsAux b cs) := by
  intro cs
  induction cs with
  | nil =>
    intro _ b
    cases b <;> exact noMatch_nil rfl
  | cons c cs ih =>
    intro h b
    rw [noMatch_cons_iff] at h
    cases hw : isWs c with
    | true =>
      have hsp : markStartsAt mark (' ' :: collapseWsAux true cs) = false := by
        cases hq : markStartsAt mark (' ' :: collapseWsAux true cs) with
        | false => rfl
        | true =>
          exfalso
          obtain ⟨w, t, heq, hw2⟩ := markStartsAt_cases hq
          injection heq with h1 h2
          rw [← h1] at hmw
          exact absurd hmw (by decide)
      cases b with
      | true =>
        rw [collapseWsAux]
        simp [hw]
        exact ih h.2 true
      | false =>
        rw [collapseWsAux]
        simp [hw]
        exact noMatch_cons_iff.mpr ⟨hsp, ih h.2 true⟩
    | false =>
      cases b with
      | true =>
        rw [collapseWsAux]
        simp [hw]
        exact noMatch_cons_iff.mpr ⟨collapse_keep_head_mark h.1, ih h.2 false⟩
      | false =>
        rw [collapseWsAux]
        simp [hw]
        exact noMatch_cons_iff.mpr ⟨collapse_keep_head_mark h.1, ih h.2 false⟩

/-! ## Shape predicates for whitespace, and `strip` lemmas -/

theorem wsPairFree_cons {a : Char} {l : List Char}
    (h1 : ∀ b, l.head? = some b → (isWs a && isWs b) = false)
    (h2 : wsPairFree l = true) : wsPairFree (a :: l) = true := by
  cases l with
  | nil => rfl
  | cons b r =>
    rw [wsPairFree]
    simp only [Bool.and_eq_true, Bool.not_eq_true']
    exact ⟨h1 b rfl, h2⟩

theorem wsPairFree_tail {a : Char} {l : List Char}
    (h : wsPairFree (a :: l) = true) : wsPairFree l = true := by
  cases l with
  | nil => rfl
  | cons b r =>
    rw [wsPairFree] at h
    simp only [Bool.and_eq_true] at h
    exact h.2

theorem wsPairFree_pair {a b : Char} {r : List Char}
    (h : wsPairFree (a :: b :: r) = true) : (isWs a && isWs b) = false := by
  rw [wsPairFree] at h
  simp only [Bool.and_eq_true, Bool.not_eq_true'] at h
  exact h.1

theorem dropWhile_decomp (p : Char → Bool) (l : List Char) :
    ∃ a, l = a ++ l.dropWhile p := by
  induction l with
  | nil => exact ⟨[], rfl⟩
  | cons c l ih =>
    cases hp : p c with
    | true =>
      obtain ⟨a, ha⟩ := ih
      refine ⟨c :: a, ?_⟩
      rw [List.dropWhile_cons_of_pos hp]
      exact congrArg (List.cons c) ha
    | false =>
      refine ⟨[], ?_⟩
      rw [List.dropWhile_cons_of_neg (by simp [hp])]
      rfl

theorem dropTrailWs_decomp (l : List Char) : ∃ b, l = dropTrailWs l ++ b := by
  induction l with
  | nil => exact ⟨[], rfl⟩
  | cons c l ih =>
    obtain ⟨b, hb⟩ := ih
    rw [dropTrailWs]
    cases hq : dropTrailWs l with
    | nil =>
      cases hw : isWs c with
      | true => exact ⟨c :: l, by simp⟩
      | false => exact ⟨l, by simp⟩
    | cons d ds =>
      refine ⟨b, ?_⟩
      rw [hq] at hb
      simpa using congrArg (List.cons c) hb

theorem dropWhile_head_not {p : Char → Bool} {l : List Char} {c : Char}
    (h : (l.dropWhile p).head? = some c) : p c = false := by
  induction l with
  | nil => simp at h
  | cons a l ih =>
    cases hp : p a with
    | true =>
      rw [List.dropWhile_cons_of_pos hp] at h
      exact ih h
    | false =>
      rw [List.dropWhile_cons_of_neg (by simp [hp])] at h
      simp at h
      rw [← h]
      exact hp

theorem dropTrailWs_head (c : Char) (cs : List Char) :
    dropTrailWs (c :: cs) = [] ∨ ∃ t, dropTrailWs (c :: cs) = c :: t := by
  rw [dropTrailWs]
  cases hq : dropTrailWs cs with
  | nil =>
    cases hw : isWs c with
    | true => left; simp
    | false => right; exact ⟨[], by simp⟩
  | cons d ds => right; exact ⟨d :: ds, rfl⟩

theorem dropTrailWs_last : ∀ (l : List Char), lastNotWs (dropTrailWs l) := by
  intro l
  induction l with
  | nil => intro c h; simp [dropTrailWs] at h
  | cons a l ih =>
    intro c h
    rw [dropTrailWs] at h
    cases hq : dropTrailWs l with
    | nil =>
      rw [hq] at h
      cases hw : isWs a with
      | true => rw [hw] at h; simp at h
      | false =>
        rw [hw] at h
        simp at h
        rw [← h]
        exact hw
    | cons d ds =>
      rw [hq] at h
      have h2 : (d :: ds).getLast? = some c := h
      rw [← hq] at h2
      exact ih c h2

theorem dropTrailWs_id : ∀ {l : List Char}, lastNotWs l → dropTrailWs l = l := by
  intro l
  induction l with
  | nil => intro _; rfl
  | cons a l ih =>
    intro h
    rw [dropTrailWs]
    cases l with
    | nil =>
      have ha := h a rfl
      simp [dropTrailWs, ha]
    | cons b m =>
      have h2 : lastNotWs (b :: m) := fun c hc => h c hc
      rw [ih h2]

theorem dropWhile_ws_id {l : List Char} (h : headNotWs l) :
    l.dropWhile isWs = l := by
  cases l with
  | nil => rfl
  | cons a m => exact List.dropWhile_cons_of_neg (by simp [h a rfl])

theorem stripWs_head (l : List Char) : headNotWs (stripWs l) := by
  intro c h
  unfold stripWs at h
  cases hm : l.dropWhile isWs with
  | nil => rw [hm] at h; simp [dropTrailWs] at h
  | cons a m =>
    rw [hm] at h
    rcases dropTrailWs_head a m with hnil | ⟨t, ht⟩
    · rw [hnil] at h; simp at h
    · rw [ht] at h
      simp at h
      have hhead : (l.dropWhile isWs).head? = some a := by rw [hm]; rfl
      have ha := dropWhile_head_not hhead
      rw [← h]
      exact ha

theorem stripWs_last (l : List Char) : lastNotWs (stripWs l) :=
  dropTrailWs_last _

theorem stripWs_id {l : List Char} (h1 : headNotWs l) (h2 : lastNotWs l) :
    stripWs l = l := by
  unfold stripWs
  rw [dropWhile_ws_id h1]
  exact dropTrailWs_id h2

theorem stripWs_idem (l : List Char) : stripWs (stripWs l) = stripWs l :=
  stripWs_id (stripWs_head l) (stripWs_last l)

/-- Stripping preserves the absence of matches (matches are windows, and
stripping only removes characters at the two ends). -/
theorem noMatch_stripWs {f : List Char → Bool}
    (hmono : ∀ y r, f y = true → f (y ++ r) = true) (hnil : f [] = false)
    {l : List Char} (h : NoMatch f l) : NoMatch f (stripWs l) := by
  unfold stripWs
  obtain ⟨a, ha⟩ := dropWhile_decomp isWs l
  rw [ha] at h
  have h1 := noMatch_append_right h
  obtain ⟨b, hb⟩ := dropTrailWs_decomp (l.dropWhile isWs)
  rw [hb] at h1
  exact noMatch_append_left hmono hnil h1

theorem stripWs_subset {l : List Char} {c : Char} (h : c ∈ stripWs l) :
    c ∈ l := by
  unfold stripWs at h
  obtain ⟨b, hb⟩ := dropTrailWs_decomp (l.dropWhile isWs)
  obtain ⟨a, ha⟩ := dropWhile_decomp isWs l
  rw [ha]
  have h2 : c ∈ l.dropWhile isWs := by
    rw [hb]
    exact List.mem_append_left _ h
  exact List.mem_append_right _ h2

theorem wsPairFree_dropWhile {l : List Char} (h : wsPairFree l = true) :
    wsPairFree (l.dropWhile isWs) = true := by
  induction l with
  | nil => exact h
  | cons a l ih =>
    cases hp : isWs a with
    | true =>
      rw [List.dropWhile_cons_of_pos hp]
      exact ih (wsPairFree_tail h)
    | false =>
      rw [List.dropWhile_cons_of_neg (by simp [hp])]
      exact h

theorem wsPairFree_dropTrail : ∀ {l : List Char}, wsPairFree l = true →
    wsPairFree (dropTrailWs l) = true := by
  intro l
  induction l with
  | nil => intro h; exact h
  | cons a l ih =>
    intro h
    rw [dropTrailWs]
    cases hq : dropTrailWs l with
    | nil =>
      cases hw : isWs a with
      | true => rfl
      | false => rfl
    | cons d ds =>
      cases l with
      | nil => simp [dropTrailWs] at hq
      | cons b m =>
        rcases dropTrailWs_head b m with hnil | ⟨t, ht⟩
        · rw [hnil] at hq; cases hq
        · rw [ht] at hq
          injection hq with hq1 hq2
          subst hq1
          apply wsPairFree_cons
          · intro e he
            simp at he
            rw [← he]
            exact wsPairFree_pair h
          · have h3 : wsPairFree (dropTrailWs (b :: m)) = true :=
              ih (wsPairFree_tail h)
            rw [ht] at h3
            rw [← hq2]
            exact h3

/-! ## Shape of the collapse output, and fixed points -/

/-- Joint shape of the collapse output: no two adjacent whitespace
characters, and in skipping mode the next emitted character is not
whitespace. -/
theorem collapse_shape : ∀ (l : List Char),
    wsPairFree (collapseWsAux false l) = true ∧
    wsPairFree (collapseWsAux true l) = true ∧
    headNotWs (collapseWsAux true l) := by
  intro l
  induction l with
  | nil =>
    refine ⟨rfl, rfl, ?_⟩
    intro c h
    simp [collapseWsAux] at h
  | cons a cs ih =>
    obtain ⟨ihf, iht, ihh⟩ := ih
    cases hw : isWs a with
    | true =>
      have hf : collapseWsAux false (a :: cs) = ' ' :: collapseWsAux true cs := by
        rw [collapseWsAux]; simp [hw]
      have ht : collapseWsAux true (a :: cs) = collapseWsAux true cs := by
        rw [collapseWsAux]; simp [hw]
      refine ⟨?_, ?_, ?_⟩
      · rw [hf]
        apply wsPairFree_cons
        · intro b hb
          rw [ihh b hb, Bool.and_false]
        · exact iht
      · rw [ht]; exact iht
      · rw [ht]; exact ihh
    | false =>
      have hf : collapseWsAux false (a :: cs) = a :: collapseWsAux false cs := by
        rw [collapseWsAux]; simp [hw]
      have ht : collapseWsAux true (a :: cs) = a :: collapseWsAux false cs := by
        rw [collapseWsAux]; simp [hw]
      have hp : wsPairFree (a :: collapseWsAux false cs) = true := by
        apply wsPairFree_cons
        · intro b hb
          rw [hw, Bool.false_and]
        · exact ihf
      refine ⟨?_, ?_, ?_⟩
      · rw [hf]; exact hp
      · rw [ht]; exact hp
      · rw [ht]
        intro c h
        simp at h
        rw [← h]
        exact hw

/-- Every whitespace character the collapse emits is a plain space. -/
theorem collapse_allWsSingle : ∀ (l : List Char) (b : Bool),
    allWsSingle (collapseWsAux b l) := by
  intro l
  induction l with
  | nil => intro b c hc; simp [collapseWsAux] at hc
  | cons a cs ih =>
    intro b c hc hws
    cases hw : isWs a with
    | true =>
      cases b with
      | true =>
        rw [collapseWsAux] at hc
        simp [hw] at hc
        exact ih true c hc hws
      | false =>
        rw [collapseWsAux] at hc
        simp [hw] at hc
        rcases hc with rfl | hc
        · rfl
        · exact ih true c hc hws
    | false =>
      have hstep : collapseWsAux b (a :: cs) = a :: collapseWsAux false cs := by
        rw [collapseWsAux]; cases b <;> simp [hw]
      rw [hstep] at hc
      rcases List.mem_cons.mp hc with rfl | hc
      · rw [hw] at hws; cases hws
      · exact ih false c hc hws

theorem collapseWsAux_true_eq {cs : List Char} (h : headNotWs cs) :
    collapseWsAux true cs = collapseWsAux false cs := by
  cases cs with
  | nil => rfl
  | cons b r =>
    have hb := h b rfl
    rw [collapseWsAux, collapseWsAux]
    simp [hb]

/-- A string whose whitespace is single plain spaces, never doubled, is a
fixed point of the collapse. -/
theorem collapse_id : ∀ {l : List Char}, wsPairFree l = true →
    allWsSingle l → collapseWsAux false l = l := by
  intro l
  induction l with
  | nil => intro _ _; rfl
  | cons a cs ih =>
    intro h1 h2
    have htail : allWsSingle cs :=
      fun c hc hcws => h2 c (List.mem_cons_of_mem a hc) hcws
    cases hw : isWs a with
    | true =>
      have ha : a = ' ' := h2 a (List.mem_cons_self a cs) hw
      have hhead : headNotWs cs := by
        intro b hb
        cases cs with
        | nil => simp at hb
        | cons b' r =>
          simp at hb
          have hpair := wsPairFree_pair h1
          rw [hw] at hpair
          rw [← hb]
          simpa using hpair
      rw [collapseWsAux]
      simp only [hw, Bool.and_true, Bool.and_false]
      rw [collapseWsAux_true_eq hhead, ih (wsPairFree_tail h1) htail]
      cases a
      simp at ha
      rw [ha]
      simp
    | false =>
      rw [collapseWsAux]
      simp [hw]
      exact ih (wsPairFree_tail h1) htail

theorem allWsSingle_stripWs {l : List Char} (h : allWsSingle l) :
    allWsSingle (stripWs l) :=
  fun c hc hws => h c (stripWs_subset hc) hws

theorem wsPairFree_stripWs {l : List Char} (h : wsPairFree l = true) :
    wsPairFree (stripWs l) = true :=
  wsPairFree_dropTrail (wsPairFree_dropWhile h)

/-- Lifting a property through the toggled steps of the pipeline. -/
theorem prop_ite {α : Type} {P : α → Prop} (b : Bool) {y x : α}
    (hy : P y) (hx : P x) : P (if b = true then y else x) := by
  cases b
  · simpa using hx
  · simpa using hy

/-! ## Pipeline-level lemmas for `process_text` -/

theorem process_headNotWs (cfg : Config) (t : List Char) :
    headNotWs (process_text cfg t) := by
  rw [process_text]
  cases ht : t.isEmpty with
  | true =>
    intro c h
    simp at h
  | false =>
    simp only [Bool.false_eq_true, if_false]
    exact stripWs_head _

theorem process_lastNotWs (cfg : Config) (t : List Char) :
    lastNotWs (process_text cfg t) := by
  rw [process_text]
  cases ht : t.isEmpty with
  | true =>
    intro c h
    simp at h
  | false =>
    simp only [Bool.false_eq_true, if_false]
    exact stripWs_last _

/-- With URL removal on, emoji removal off and no prefix/suffix, the
pipeline output has no URL match: `subUrl` produces none and every later
enabled step preserves that. -/
theorem process_noMatch_url (mx : Nat) (sk htg mnt spc : Bool)
    (t : List Char) :
    NoMatch urlStartsAt
      (process_text ⟨mx, sk, true, htg, mnt, false, spc, [], []⟩ t) := by
  rw [process_text]
  cases ht : t.isEmpty with
  | true => exact noMatch_nil rfl
  | false =>
    simp only [Bool.false_eq_true, if_false]
    simp only [List.isEmpty_nil, if_true, if_false, Bool.true_eq_false]
    have h1 : NoMatch urlStartsAt (subUrl t) := subUrl_noMatch t false
    have h2 : NoMatch urlStartsAt
        (if htg = true then subTag (subUrl t) else subUrl t) := by
      apply prop_ite
      · show NoMatch urlStartsAt (subTagAux false (subUrl t))
        rw [subTagAux_eq]
        exact subMark_noMatch_url (by decide) _ h1 false
      · exact h1
    have h3 : NoMatch urlStartsAt
        (if mnt = true then
          subMention (if htg = true then subTag (subUrl t) else subUrl t)
        else if htg = true then subTag (subUrl t) else subUrl t) := by
      apply prop_ite
      · show NoMatch urlStartsAt (subMentionAux false _)
        rw [subMentionAux_eq]
        exact subMark_noMatch_url (by decide) _ h2 false
      · exact h2
    have h5 : NoMatch urlStartsAt
        (if spc = true then
          stripWs (collapseWs
            (if mnt = true then
              subMention (if htg = true then subTag (subUrl t) else subUrl t)
            else if htg = true then subTag (subUrl t) else subUrl t))
        else
          if mnt = true then
            subMention (if htg = true then subTag (subUrl t) else subUrl t)
          else if htg = true then subTag (subUrl t) else subUrl t) := by
      apply prop_ite
      · apply noMatch_stripWs urlStartsAt_mono rfl
        show NoMatch urlStartsAt (collapseWsAux false _)
        exact collapse_noMatch_url _ h3 false
      · exact h3
    exact noMatch_stripWs urlStartsAt_mono rfl h5

/-- With hashtag removal on, emoji removal off and no prefix/suffix, the
pipeline output has no `#\w+` match. -/
theorem process_noMatch_tag (mx : Nat) (sk u mnt spc : Bool)
    (t : List Char) :
    NoMatch (markStartsAt '#')
      (process_text ⟨mx, sk, u, true, mnt, false, spc, [], []⟩ t) := by
  rw [process_text]
  cases ht : t.isEmpty with
  | true => exact noMatch_nil rfl
  | false =>
    simp only [Bool.false_eq_true, if_false]
    simp only [List.isEmpty_nil, if_true, if_false, Bool.true_eq_false]
    have h2 : NoMatch (markStartsAt '#')
        (subTag (if u = true then subUrl t else t)) := by
      show NoMatch (markStartsAt '#')
        (subTagAux false (if u = true then subUrl t else t))
      rw [subTagAux_eq]
      exact subMark_noMatch '#' _ false
    have h3 : NoMatch (markStartsAt '#')
        (if mnt = true then
          subMention (subTag (if u = true then subUrl t else t))
        else subTag (if u = true then subUrl t else t)) := by
      apply prop_ite
      · show NoMatch (markStartsAt '#') (subMentionAux false _)
        rw [subMentionAux_eq]
        exact subMark_noMatch_other _ h2 false
      · exact h2
    have h5 : NoMatch (markStartsAt '#')
        (if spc = true then
          stripWs (collapseWs
            (if mnt = true then
              subMention (subTag (if u = true then subUrl t else t))
            else subTag (if u = true then subUrl t else t)))
        else
          if mnt = true then
            subMention (subTag (if u = true then subUrl t else t))
          else subTag (if u = true then subUrl t else t)) := by
      apply prop_ite
      · apply noMatch_stripWs (markStartsAt_mono '#') rfl
        show NoMatch (markStartsAt '#') (collapseWsAux false _)
        exact collapse_noMatch_mark (by decide) _ h3 false
      · exact h3
    exact noMatch_stripWs (markStartsAt_mono '#') rfl h5

/-- With mention removal on, emoji removal off and no prefix/suffix, the
pipeline output has no `@\w+` match. -/
theorem process_noMatch_mention (mx : Nat) (sk u htg spc : Bool)
    (t : List Char) :
    NoMatch (markStartsAt '@')
      (process_text ⟨mx, sk, u, htg, true, false, spc, [], []⟩ t) := by
  rw [process_text]
  cases ht : t.isEmpty with
  | true => exact noMatch_nil rfl
  | false =>
    simp only [Bool.false_eq_true, if_false]
    simp only [List.isEmpty_nil, if_true, if_false, Bool.true_eq_false]
    have h3 : NoMatch (markStartsAt '@')
        (subMention
          (if htg = true then subTag (if u = true then subUrl t else t)
           else if u = true then subUrl t else t)) := by
      show NoMatch (markStartsAt '@') (subMentionAux false _)
      rw [subMentionAux_eq]
      exact subMark_noMatch '@' _ false
    have h5 : NoMatch (markStartsAt '@')
        (if spc = true then
          stripWs (collapseWs
            (subMention
              (if htg = true then subTag (if u = true then subUrl t else t)
               else if u = true then subUrl t else t)))
        else
          subMention
            (if htg = true then subTag (if u = true then subUrl t else t)
             else if u = true then subUrl t else t)) := by
      apply prop_ite
      · apply noMatch_stripWs (markStartsAt_mono '@') rfl
        show NoMatch (markStartsAt '@') (collapseWsAux false _)
        exact collapse_noMatch_mark (by decide) _ h3 false
      · exact h3
    exact noMatch_stripWs (markStartsAt_mono '@') rfl h5

/-- With whitespace collapsing on and no prefix/suffix, the pipeline output
has single, non-doubled spaces as its only whitespace. -/
theorem process_shape (mx : Nat) (sk u htg mnt : Bool) (t : List Char) :
    wsPairFree (process_text ⟨mx, sk, u, htg, mnt, false, true, [], []⟩ t)
      = true ∧
    allWsSingle (process_text ⟨mx, sk, u, htg, mnt, false, true, [], []⟩ t) := by
  rw [process_text]
  cases ht : t.isEmpty with
  | true =>
    constructor
    · rfl
    · intro c hc
      simp at hc
  | false =>
    simp only [Bool.false_eq_true, if_false]
    simp only [List.isEmpty_nil, if_true, if_false, Bool.true_eq_false]
    constructor
    · exact wsPairFree_stripWs (wsPairFree_stripWs (collapse_shape _).1)
    · exact allWsSingle_stripWs (allWsSingle_stripWs (collapse_allWsSingle _ false))

/-- A string that is already free of every enabled pattern, with clean
whitespace at both ends, is a fixed point of the pipeline (no prefix,
no suffix, emoji removal off). -/
theorem process_fix (mx : Nat) (sk u htg mnt spc : Bool) {z : List Char}
    (hu : u = true → NoMatch urlStartsAt z)
    (hh : htg = true → NoMatch (markStartsAt '#') z)
    (hm : mnt = true → NoMatch (markStartsAt '@') z)
    (hs : spc = true → wsPairFree z = true ∧ allWsSingle z)
    (hhead : headNotWs z) (hlast : lastNotWs z) :
    process_text ⟨mx, sk, u, htg, mnt, false, spc, [], []⟩ z = z := by
  rw [process_text]
  cases hz : z.isEmpty with
  | true =>
    rw [List.isEmpty_iff.mp hz]
    rfl
  | false =>
    simp only [Bool.false_eq_true, if_false]
    simp only [List.isEmpty_nil, if_true, if_false, Bool.true_eq_false]
    have e1 : (if u = true then subUrl z else z) = z := by
      cases u with
      | false => simp
      | true => simpa [subUrl] using subUrl_id_of_noMatch (hu rfl)
    rw [e1]
    have e2 : (if htg = true then subTag z else z) = z := by
      cases htg with
      | false => simp
      | true =>
        simpa [subTag, subTagAux_eq] using subMark_id_of_noMatch (hh rfl)
    rw [e2]
    have e3 : (if mnt = true then subMention z else z) = z := by
      cases mnt with
      | false => simp
      | true =>
        simpa [subMention, subMentionAux_eq] using
          subMark_id_of_noMatch (hm rfl)
    rw [e3]
    have e5 : (if spc = true then stripWs (collapseWs z) else z) = z := by
      cases spc with
      | false => simp
      | true =>
        have hc : collapseWsAux false z = z :=
          collapse_id (hs rfl).1 (hs rfl).2
        have hz2 : stripWs z = z := stripWs_id hhead hlast
        simpa [collapseWs, hc] using hz2
    rw [e5]
    exact stripWs_id hhead hlast

/-! ## Router lemmas -/

theorem post_to_twitter_files (env : Env) (text : List Char)
    (media : Option (FileTag × Nat)) (s : Sys) :
    (post_to_twitter env text media s).1.files = s.files := by
  rcases media with _ | ⟨f, n⟩
  · simp only [post_to_twitter]
    split_ifs <;> rfl
  · simp only [post_to_twitter]
    split_ifs <;> rfl

theorem post_to_twitter_logPosts (env : Env) (text : List Char)
    (media : Option (FileTag × Nat)) (s : Sys) :
    (post_to_twitter env text media s).1.logPosts = s.logPosts := by
  rcases media with _ | ⟨f, n⟩
  · simp only [post_to_twitter]
    split_ifs <;> rfl
  · simp only [post_to_twitter]
    split_ifs <;> rfl

/-- The 50 MB check: an oversize file makes `post_to_twitter` report
failure without touching the state (`ValueError` raised and caught). -/
theorem post_to_twitter_big {env : Env} {text : List Char} {f : FileTag}
    {n : Nat} {s : Sys} (h : 50 * 1024 * 1024 < n) :
    post_to_twitter env text (some (f, n)) s = (s, false) := by
  simp only [post_to_twitter]
  rw [if_pos h]

theorem removeIfExists_logPosts (p : FileTag) (s : Sys) :
    (removeIfExists p s).logPosts = s.logPosts := by
  unfold removeIfExists
  split_ifs <;> rfl

theorem removeIfExists_head {p : FileTag} {s2 : Sys} {l : List FileTag}
    (hf : s2.files = p :: l) : (removeIfExists p s2).files = l := by
  unfold removeIfExists
  rw [hf, if_pos (List.mem_cons_self p l)]
  simp [hf]

/-- The `finally:` clause of `process_for_twitter` always deletes the
temporary Twitter media file (when the download raised, no file was
created in the first place). -/
theorem process_for_twitter_cleanup (env : Env) (msg : Message)
    (ptext : List Char) (s : Sys)
    (h : FileTag.twitterMedia msg.id ∉ s.files) :
    FileTag.twitterMedia msg.id ∉
      (process_for_twitter env msg ptext s).1.files := by
  cases hm : msg.media with
  | none =>
    simp only [process_for_twitter, hm]
    rw [post_to_twitter_files]
    exact h
  | some m =>
    simp only [process_for_twitter, hm]
    cases hd : env.downloadTwRaises with
    | true => simpa using h
    | false =>
      simp only [Bool.false_eq_true, if_false]
      have hfiles := post_to_twitter_files env ptext
        (some (FileTag.twitterMedia msg.id, m.sizeBytes))
        { s with files := FileTag.twitterMedia msg.id :: s.files }
      rw [removeIfExists_head hfiles]
      exact h

theorem process_for_twitter_logPosts (env : Env) (msg : Message)
    (ptext : List Char) (s : Sys) :
    (process_for_twitter env msg ptext s).1.logPosts = s.logPosts := by
  cases hm : msg.media with
  | none =>
    simp only [process_for_twitter, hm]
    rw [post_to_twitter_logPosts]
  | some m =>
    simp only [process_for_twitter, hm]
    cases hd : env.downloadTwRaises with
    | true => rfl
    | false =>
      simp only [Bool.false_eq_true, if_false]
      rw [removeIfExists_logPosts, post_to_twitter_logPosts]

/-- Oversize media: the Twitter attempt reports failure (or a caught
download error), never success. -/
theorem process_for_twitter_big (env : Env) (msg : Message)
    (ptext : List Char) (s : Sys) {m : Media}
    (hm : msg.media = some m) (hbig : 50 * 1024 * 1024 < m.sizeBytes) :
    (process_for_twitter env msg ptext s).2 =
      (if env.downloadTwRaises = true then TwOutcome.errorCaught
       else TwOutcome.failed) := by
  simp only [process_for_twitter, hm]
  cases hd : env.downloadTwRaises with
  | true => rfl
  | false =>
    simp only [Bool.false_eq_true, if_false]
    rw [post_to_twitter_big hbig]
    rfl

/-- The log-channel attempt removes its temporary file unless `send_file`
raises (in which case the cleanup line is skipped — see the
counterexample to claim C2). -/
theorem log_cleanup {env : Env} {msg : Message} {ptext : List Char}
    {s : Sys} (h : FileTag.tempMedia msg.id ∉ s.files)
    (hsf : env.sendFileRaises = false) :
    FileTag.tempMedia msg.id ∉
      (post_to_log_channel env msg ptext s).files := by
  cases hm : msg.media with
  | none =>
    simp only [post_to_log_channel, log_body, hm]
    cases hsm : env.sendMessageRaises with
    | true => simpa using h
    | false => simpa using h
  | some m =>
    simp only [post_to_log_channel, log_body, hm]
    cases hd : env.downloadLogRaises with
    | true => simpa using h
    | false =>
      rw [hsf]
      simp only [Bool.false_eq_true, if_false]
      have hf : (({ s with files := FileTag.tempMedia msg.id :: s.files } :
          Sys).logPosts ++ [ptext] : List (List Char)) = s.logPosts ++ [ptext] := rfl
      rw [removeIfExists_head rfl]
      exact h

/-! ## Claim theorems: the router -/

/-- C1: with `SKIP_LONG_POSTS` on and the processed text longer than
`MAX_TWITTER_LENGTH`, the handler returns normally, the Twitter delivery
attempt is never invoked, and the log-channel delivery attempt is
invoked exactly once. -/
theorem claim1_long_post_skips_twitter (env : Env) (cfg : Config)
    (msg : Message) (s : Sys)
    (h1 : cfg.skipLongPosts = true)
    (h2 : cfg.maxTwitterLength <
      (process_text cfg (msg.text.getD [])).length) :
    handler_body env cfg msg s =
      Except.ok (handle_source_channel_message env cfg msg s) ∧
    (handle_source_channel_message env cfg msg s).trace.count
      Act.twitterAttempt = 0 ∧
    (handle_source_channel_message env cfg msg s).trace.count
      Act.logAttempt = 1 := by
  have hskip : skip_twitter cfg msg = true := by
    unfold skip_twitter
    rw [h1]
    simpa using h2
  simp only [handle_source_channel_message, handler_body, hskip, if_true]
  exact ⟨trivial, rfl, rfl⟩

/-- C5: the handler body never lets an exception escape (for every
failure injection), the outer handler returns that same outcome, the log
attempt always runs, and the Twitter attempt runs exactly when the
length check allows it — independent of any delivery failures. -/
theorem claim5_handler_total_and_independent (env : Env) (cfg : Config)
    (msg : Message) (s : Sys) :
    handler_body env cfg msg s =
      Except.ok (handle_source_channel_message env cfg msg s) ∧
    Act.logAttempt ∈ (handle_source_channel_message env cfg msg s).trace ∧
    (Act.twitterAttempt ∈
        (handle_source_channel_message env cfg msg s).trace ↔
      skip_twitter cfg msg = false) := by
  cases hskip : skip_twitter cfg msg with
  | true =>
    simp only [handle_source_channel_message, handler_body, hskip, if_true]
    refine ⟨trivial, by simp, ?_⟩
    constructor
    · intro hmem
      simp at hmem
    · intro hfalse
      cases hfalse
  | false =>
    simp only [handle_source_channel_message, handler_body, hskip,
      Bool.false_eq_true, if_false]
    exact ⟨trivial, by simp, by simp⟩

/-- C3: oversize media on an eligible message: the handler returns
normally, the Twitter attempt never reports success (and reports failure
whenever the download itself did not raise), and the log-channel
delivery performed before it is untouched. -/
theorem claim3_oversize_media (env : Env) (cfg : Config) (msg : Message)
    (s : Sys) (m : Media)
    (hm : msg.media = some m)
    (hbig : 50 * 1024 * 1024 < m.sizeBytes)
    (hskip : skip_twitter cfg msg = false) :
    handler_body env cfg msg s =
      Except.ok (handle_source_channel_message env cfg msg s) ∧
    (handle_source_channel_message env cfg msg s).twAttempt ≠
      some TwOutcome.posted ∧
    (handle_source_channel_message env cfg msg s).sys.logPosts =
      (post_to_log_channel env msg
        (process_text cfg (msg.text.getD [])) s).logPosts ∧
    (env.downloadTwRaises = false →
      (handle_source_channel_message env cfg msg s).twAttempt =
        some TwOutcome.failed) := by
  have htw := process_for_twitter_big env msg
    (process_text cfg (msg.text.getD []))
    (post_to_log_channel env msg
      (process_text cfg (msg.text.getD [])) s) hm hbig
  simp only [handle_source_channel_message, handler_body, hskip,
    Bool.false_eq_true, if_false]
  refine ⟨trivial, ?_, ?_, ?_⟩
  · rw [htw]
    cases env.downloadTwRaises <;> simp
  · exact process_for_twitter_logPosts env msg _ _
  · intro hdl
    rw [htw, hdl]
    rfl

/-- C2, counterexample: when `send_file` raises, `post_to_log_channel`
catches the exception but never reaches its cleanup line, so the
temporary file `temp_media_7` still exists after the attempt. -/
theorem claim2_counterexample :
    FileTag.tempMedia 7 ∈
      (post_to_log_channel ⟨false, true, false, false, false, false⟩
        ⟨7, some ['x'], some ⟨100⟩⟩ ['x'] ⟨[], [], []⟩).files := by
  decide

/-- C2, amended: the Twitter attempt deletes its temporary file on every
exit path (its cleanup is in a `finally:`), while the log-channel attempt
deletes its temporary file only when `send_file` does not raise. -/
theorem claim2_amended (env : Env) (msg : Message) (ptext : List Char)
    (s : Sys)
    (h1 : FileTag.twitterMedia msg.id ∉ s.files)
    (h2 : FileTag.tempMedia msg.id ∉ s.files)
    (h3 : env.sendFileRaises = false) :
    FileTag.twitterMedia msg.id ∉
      (process_for_twitter env msg ptext s).1.files ∧
    FileTag.tempMedia msg.id ∉
      (post_to_log_channel env msg ptext s).files :=
  ⟨process_for_twitter_cleanup env msg ptext s h1, log_cleanup h2 h3⟩

theorem claim2_witness :
    FileTag.twitterMedia 1 ∉ (⟨[], [], []⟩ : Sys).files ∧
    FileTag.tempMedia 1 ∉ (⟨[], [], []⟩ : Sys).files ∧
    (⟨false, false, false, true, false, false⟩ : Env).sendFileRaises = false ∧
    (FileTag.twitterMedia 1 ∉
      (process_for_twitter ⟨false, false, false, true, false, false⟩
        ⟨1, some ['x'], some ⟨10⟩⟩ ['x'] ⟨[], [], []⟩).1.files ∧
     FileTag.tempMedia 1 ∉
      (post_to_log_channel ⟨false, false, false, true, false, false⟩
        ⟨1, some ['x'], some ⟨10⟩⟩ ['x'] ⟨[], [], []⟩).files) :=
  ⟨by decide, by decide, by decide,
   claim2_amended ⟨false, false, false, true, false, false⟩
     ⟨1, some ['x'], some ⟨10⟩⟩ ['x'] ⟨[], [], []⟩
     (by decide) (by decide) (by decide)⟩

theorem claim1_witness :
    (⟨0, true, false, false, false, false, false, [], []⟩ :
      Config).skipLongPosts = true ∧
    (⟨0, true, false, false, false, false, false, [], []⟩ :
        Config).maxTwitterLength <
      (process_text ⟨0, true, false, false, false, false, false, [], []⟩
        ((⟨1, some ['h', 'i'], none⟩ : Message).text.getD [])).length ∧
    (handler_body ⟨false, false, false, false, false, false⟩
        ⟨0, true, false, false, false, false, false, [], []⟩
        ⟨1, some ['h', 'i'], none⟩ ⟨[], [], []⟩ =
      Except.ok (handle_source_channel_message
        ⟨false, false, false, false, false, false⟩
        ⟨0, true, false, false, false, false, false, [], []⟩
        ⟨1, some ['h', 'i'], none⟩ ⟨[], [], []⟩) ∧
    (handle_source_channel_message
        ⟨false, false, false, false, false, false⟩
        ⟨0, true, false, false, false, false, false, [], []⟩
        ⟨1, some ['h', 'i'], none⟩ ⟨[], [], []⟩).trace.count
      Act.twitterAttempt = 0 ∧
    (handle_source_channel_message
        ⟨false, false, false, false, false, false⟩
        ⟨0, true, false, false, false, false, false, [], []⟩
        ⟨1, some ['h', 'i'], none⟩ ⟨[], [], []⟩).trace.count
      Act.logAttempt = 1) :=
  ⟨rfl, by decide,
   claim1_long_post_skips_twitter ⟨false, false, false, false, false, false⟩
     ⟨0, true, false, false, false, false, false, [], []⟩
     ⟨1, some ['h', 'i'], none⟩ ⟨[], [], []⟩ rfl (by decide)⟩

theorem claim3_witness :
    (⟨2, some ['y'], some ⟨52428801⟩⟩ : Message).media = some ⟨52428801⟩ ∧
    50 * 1024 * 1024 < (52428801 : Nat) ∧
    skip_twitter ⟨280, false, false, false, false, false, false, [], []⟩
      ⟨2, some ['y'], some ⟨52428801⟩⟩ = false ∧
    (handler_body ⟨false, false, false, false, false, false⟩
        ⟨280, false, false, false, false, false, false, [], []⟩
        ⟨2, some ['y'], some ⟨52428801⟩⟩ ⟨[], [], []⟩ =
      Except.ok (handle_source_channel_message
        ⟨false, false, false, false, false, false⟩
        ⟨280, false, false, false, false, false, false, [], []⟩
        ⟨2, some ['y'], some ⟨52428801⟩⟩ ⟨[], [], []⟩) ∧
    (handle_source_channel_message
        ⟨false, false, false, false, false, false⟩
        ⟨280, false, false, false, false, false, false, [], []⟩
        ⟨2, some ['y'], some ⟨52428801⟩⟩ ⟨[], [], []⟩).twAttempt ≠
      some TwOutcome.posted ∧
    (handle_source_channel_message
        ⟨false, false, false, false, false, false⟩
        ⟨280, false, false, false, false, false, false, [], []⟩
        ⟨2, some ['y'], some ⟨52428801⟩⟩ ⟨[], [], []⟩).sys.logPosts =
      (post_to_log_channel ⟨false, false, false, false, false, false⟩
        ⟨2, some ['y'], some ⟨52428801⟩⟩
        (process_text ⟨280, false, false, false, false, false, false, [], []⟩
          ((⟨2, some ['y'], some ⟨52428801⟩⟩ : Message).text.getD []))
        ⟨[], [], []⟩).logPosts ∧
    ((⟨false, false, false, false, false, false⟩ : Env).downloadTwRaises =
        false →
      (handle_source_channel_message
        ⟨false, false, false, false, false, false⟩
        ⟨280, false, false, false, false, false, false, [], []⟩
        ⟨2, some ['y'], some ⟨52428801⟩⟩ ⟨[], [], []⟩).twAttempt =
        some TwOutcome.failed)) :=
  ⟨rfl, by decide, by decide,
   claim3_oversize_media ⟨false, false, false, false, false, false⟩
     ⟨280, false, false, false, false, false, false, [], []⟩
     ⟨2, some ['y'], some ⟨52428801⟩⟩ ⟨[], [], []⟩ ⟨52428801⟩
     rfl (by decide) (by decide)⟩

/-! ## Claim theorems: startup validation (C4) -/

theorem validate_config_missing {c : RawConfig} {v : String}
    (hv : v ∈ requiredVars) (hf : falsyVar c v = true) :
    ∃ w, validate_config c = Startup.errMissing w := by
  unfold validate_config
  cases hq : requiredVars.find? (falsyVar c) with
  | some w => exact ⟨w, rfl⟩
  | none =>
    exfalso
    exact (List.find?_eq_none.mp hq v hv) hf

/-- An absent credential (any required variable other than `LOG_CHANNEL`
and `SOURCE_CHANNELS`) is stored as `None` and is falsy. -/
theorem falsy_mkRaw_of_none {e : List (String × String)} {srcs : List Int}
    {logch : Int} {v : String} (hv : v ∈ requiredVars)
    (hlog : v ≠ "LOG_CHANNEL") (hsrc : v ≠ "SOURCE_CHANNELS")
    (hnone : getenv e v = none) :
    falsyVar (mkRaw e srcs logch) v = true := by
  simp only [requiredVars, List.mem_cons, List.not_mem_nil, or_false] at hv
  rcases hv with rfl | rfl | rfl | rfl | rfl | rfl | rfl | rfl | rfl | rfl
  · simp [falsyVar, mkRaw, hnone]
  · simp [falsyVar, mkRaw, hnone]
  · simp [falsyVar, mkRaw, hnone]
  · exact absurd rfl hsrc
  · exact absurd rfl hlog
  · simp [falsyVar, mkRaw, hnone]
  · simp [falsyVar, mkRaw, hnone]
  · simp [falsyVar, mkRaw, hnone]
  · simp [falsyVar, mkRaw, hnone]
  · simp [falsyVar, mkRaw, hnone]

/-- C4, amended: an absent required value always aborts startup before any
event handling; the error names a missing variable whenever the three
integer-valued settings parse (in particular whenever only credentials are
missing), but an absent `LOG_CHANNEL` aborts earlier, inside the config
dict construction, with a `TypeError` from `int(None)` that names no
variable. -/
theorem claim4_amended (e : List (String × String)) (v : String)
    (hv : v ∈ requiredVars) (hnone : getenv e v = none) :
    (load_config e).isOk = false ∧
    (getenv e "LOG_CHANNEL" = none →
      load_config e = Startup.errUnnamed) ∧
    (v ≠ "LOG_CHANNEL" → intSettingsParse e = true →
      (load_config e).namesMissingVar = true) := by
  have logNone : getenv e "LOG_CHANNEL" = none →
      load_config e = Startup.errUnnamed := by
    intro hl
    unfold load_config
    cases hp : parse_channels ((getenv e "SOURCE_CHANNELS").getD "") with
    | none => rfl
    | some srcs =>
      rw [hl]
  have srcsEmpty : v = "SOURCE_CHANNELS" → ∀ srcs,
      parse_channels ((getenv e "SOURCE_CHANNELS").getD "") = some srcs →
      srcs = [] := by
    rintro rfl srcs hsrcs
    rw [hnone] at hsrcs
    have hemp : parse_channels (Option.getD none "") = some [] := rfl
    rw [hemp] at hsrcs
    exact (Option.some.injEq _ _ ▸ hsrcs).symm
  refine ⟨?_, logNone, ?_⟩
  · by_cases hvlog : v = "LOG_CHANNEL"
    · subst hvlog
      rw [logNone hnone]
      rfl
    · cases hp : parse_channels ((getenv e "SOURCE_CHANNELS").getD "") with
      | none => simp [load_config, hp, Startup.isOk]
      | some srcs =>
        cases hl : getenv e "LOG_CHANNEL" with
        | none => simp [load_config, hp, hl, Startup.isOk]
        | some ls =>
          cases hlc : pyInt? ls with
          | none => simp [load_config, hp, hl, hlc, Startup.isOk]
          | some lc =>
            cases hml :
                pyInt? ((getenv e "MAX_TWITTER_LENGTH").getD "280") with
            | none => simp [load_config, hp, hl, hlc, hml, Startup.isOk]
            | some mlen =>
              have hload : load_config e =
                  validate_config (mkRaw e srcs lc) := by
                simp only [load_config, hp, hl, hlc, hml]
              rw [hload]
              by_cases hvsrc : v = "SOURCE_CHANNELS"
              · have hempty := srcsEmpty hvsrc srcs hp
                obtain ⟨w, hw⟩ := validate_config_missing
                  (c := mkRaw e srcs lc) (v := "SOURCE_CHANNELS") (by decide)
                  (by simp [falsyVar, mkRaw, hempty])
                rw [hw]
                rfl
              · obtain ⟨w, hw⟩ := validate_config_missing hv
                  (falsy_mkRaw_of_none hv hvlog hvsrc hnone)
                rw [hw]
                rfl
  · intro hvlog hparse
    unfold intSettingsParse at hparse
    simp only [Bool.and_eq_true] at hparse
    obtain ⟨⟨hsrcs, hlog⟩, hmlen⟩ := hparse
    rw [Option.isSome_iff_exists] at hsrcs hmlen
    obtain ⟨srcs, hsrcs⟩ := hsrcs
    obtain ⟨mlen, hmlen⟩ := hmlen
    cases hl : getenv e "LOG_CHANNEL" with
    | none => rw [hl] at hlog; cases hlog
    | some ls =>
      rw [hl] at hlog
      rw [Option.isSome_iff_exists] at hlog
      obtain ⟨lc, hlc⟩ := hlog
      have hload : load_config e = validate_config (mkRaw e srcs lc) := by
        simp only [load_config, hsrcs, hl, hlc, hmlen]
      rw [hload]
      by_cases hvsrc : v = "SOURCE_CHANNELS"
      · have hempty := srcsEmpty hvsrc srcs hsrcs
        obtain ⟨w, hw⟩ := validate_config_missing
          (c := mkRaw e srcs lc) (v := "SOURCE_CHANNELS") (by decide)
          (by simp [falsyVar, mkRaw, hempty])
        rw [hw]
        rfl
      · obtain ⟨w, hw⟩ := validate_config_missing hv
          (falsy_mkRaw_of_none hv hvlog hvsrc hnone)
        rw [hw]
        rfl

/-- C4, counterexample: with every variable set except `LOG_CHANNEL`,
startup fails with the `TypeError` from `int(None)` — an error that does
not name the missing variable. -/
theorem claim4_counterexample :
    getenv envNoLog "LOG_CHANNEL" = none ∧
    (load_config envNoLog).isOk = false ∧
    (load_config envNoLog).namesMissingVar = false := by
  refine ⟨by decide, by decide, by decide⟩

theorem claim4_witness :
    "TWITTER_BEARER_TOKEN" ∈ requiredVars ∧
    getenv envNoBearer "TWITTER_BEARER_TOKEN" = none ∧
    ((load_config envNoBearer).isOk = false ∧
     (getenv envNoBearer "LOG_CHANNEL" = none →
       load_config envNoBearer = Startup.errUnnamed) ∧
     ("TWITTER_BEARER_TOKEN" ≠ "LOG_CHANNEL" →
       intSettingsParse envNoBearer = true →
       (load_config envNoBearer).namesMissingVar = true)) :=
  ⟨by decide, by decide,
   claim4_amended envNoBearer "TWITTER_BEARER_TOKEN" (by decide) (by decide)⟩

/-! ## Claim theorems: the text processor -/

/-- C6, counterexample: with URL removal and emoji removal both enabled,
removing the emoji of `"h😀ttp://a"` (which contains no URL match)
produces `"http://a"`, which does contain a URL match — the processor
output is not URL-free for every configuration with URL removal on. -/
theorem claim6_counterexample :
    process_text ⟨280, true, true, false, false, true, false, [], []⟩
        "h😀ttp://a".data = "http://a".data ∧
    urlStartsAt
      (process_text ⟨280, true, true, false, false, true, false, [], []⟩
        "h😀ttp://a".data) = true := by
  refine ⟨by decide, by decide⟩

/-- C6, amended: with URL removal enabled, emoji removal disabled and
empty prefix and suffix (hashtag removal, mention removal and whitespace
collapsing arbitrary), the processor output contains no URL match. -/
theorem claim6_amended (mx : Nat) (sk htg mnt spc : Bool) (t : List Char) :
    NoMatch urlStartsAt
      (process_text ⟨mx, sk, true, htg, mnt, false, spc, [], []⟩ t) :=
  process_noMatch_url mx sk htg mnt spc t

/-- C7: with every transformation toggle disabled and empty prefix and
suffix, the processor returns the input changed only by the final trim of
leading and trailing whitespace. -/
theorem claim7_identity_up_to_strip (mx : Nat) (sk : Bool) (t : List Char) :
    process_text ⟨mx, sk, false, false, false, false, false, [], []⟩ t =
      stripWs t := by
  rw [process_text]
  cases ht : t.isEmpty with
  | true => rw [List.isEmpty_iff.mp ht]; rfl
  | false =>
    simp only [Bool.false_eq_true, if_false]
    simp only [List.isEmpty_nil, if_true, if_false, Bool.true_eq_false]

/-- C8: the whitespace-collapse step (`re.sub(r'\s+', ' ', ·).strip()`)
leaves no two adjacent whitespace characters and no leading or trailing
whitespace. -/
theorem claim8_collapse_shape (t : List Char) :
    wsPairFree (stripWs (collapseWs t)) = true ∧
    headNotWs (stripWs (collapseWs t)) ∧
    lastNotWs (stripWs (collapseWs t)) :=
  ⟨wsPairFree_stripWs (collapse_shape t).1, stripWs_head _, stripWs_last _⟩

/-- C9: prefix and suffix are applied after all removal and collapse
steps; on `"hello   http://x.com world"` with URL removal, whitespace
collapsing and prefix `"📢 "`, the processor returns `"📢 hello world"`,
which is the prefix prepended to the stripped, collapsed, URL-free text. -/
theorem claim9_order_concrete :
    process_text ⟨280, true, true, false, false, false, true, "📢 ".data, []⟩
        "hello   http://x.com world".data = "📢 hello world".data ∧
    process_text ⟨280, true, true, false, false, false, true, "📢 ".data, []⟩
        "hello   http://x.com world".data =
      stripWs ("📢 ".data ++
        stripWs (collapseWs (subUrl "hello   http://x.com world".data))) := by
  refine ⟨by decide, by decide⟩

/-- C10, counterexample: with empty prefix and suffix but URL removal and
emoji removal both enabled, the processor is not idempotent: processing
`"h😀ttp://b"` yields `"http://b"`, and processing that again yields
`""`. -/
theorem claim10_counterexample :
    process_text ⟨280, true, true, false, false, true, false, [], []⟩
        (process_text ⟨280, true, true, false, false, true, false, [], []⟩
          "h😀ttp://b".data) ≠
      process_text ⟨280, true, true, false, false, true, false, [], []⟩
        "h😀ttp://b".data := by
  decide

/-- C10, amended: with empty prefix and suffix and emoji removal
disabled (URL, hashtag and mention removal and whitespace collapsing
arbitrary), the processor is idempotent. -/
theorem claim10_idempotent (mx : Nat) (sk u htg mnt spc : Bool)
    (t : List Char) :
    process_text ⟨mx, sk, u, htg, mnt, false, spc, [], []⟩
        (process_text ⟨mx, sk, u, htg, mnt, false, spc, [], []⟩ t) =
      process_text ⟨mx, sk, u, htg, mnt, false, spc, [], []⟩ t := by
  apply process_fix
  · intro hu
    subst hu
    exact process_noMatch_url mx sk htg mnt spc t
  · intro hh
    subst hh
    exact process_noMatch_tag mx sk u mnt spc t
  · intro hm
    subst hm
    exact process_noMatch_mention mx sk u htg spc t
  · intro hs
    subst hs
    exact process_shape mx sk u htg mnt t
  · exact process_headNotWs _ _
  · exact process_lastNotWs _ _
